/-
  Verification of the Markdown AST, serializer, JSON codec, table-of-contents
  algorithm and HTML renderer of the `streamingMarkdown` library
  (src/src/md/markdown.mjs and src/src/md/renderer.mjs).

  The JavaScript class hierarchy is embedded as an inductive type `MDNode`;
  methods become Lean functions.  JavaScript exceptions are modelled with
  `Option`/`Except`: a `none`/`.error` result corresponds to a thrown
  exception reaching the caller of the modelled function.
-/
import Mathlib

namespace MD


/-- Alignment of a table column (`TableAlignments` in markdown.mjs).
`CENTERED` in the source is an alias of `CENTER` (the very same object),
so it is not a separate variant. -/
inductive TableAlignment where
  | NONE
  | LEFT
  | CENTER
  | RIGHT
deriving DecidableEq, Repr

/-- The `name` field of a `TableAlignment` (markdown.mjs `TableAlignment.name`). -/
def TableAlignment.name : TableAlignment → String
  | .NONE => "none"
  | .LEFT => "left"
  | .CENTER => "center"
  | .RIGHT => "right"

/-- The `left` delimiter of a `TableAlignment`. -/
def TableAlignment.left : TableAlignment → String
  | .NONE => "-"
  | .LEFT => ":"
  | .CENTER => ":"
  | .RIGHT => "-"

/-- The `right` delimiter of a `TableAlignment`. -/
def TableAlignment.right : TableAlignment → String
  | .NONE => "-"
  | .LEFT => "-"
  | .CENTER => ":"
  | .RIGHT => ":"

/--
The Markdown AST of markdown.mjs, flattened into a single inductive type.

* `text` is `Text` (a `Text` whose content is `"  \n"` is a linebreak);
* `emoji`, `inlineCode`, `inlineLink` extend `Text` in the source;
* `comment` is `md.Comment` (an `Element` holding its comment text as nodes);
* `link`/`image` store their title/alt nodes, the `Reference` fields
  (`url`, `tooltip`) and the lowercased `ref_name` (`""` = inline link);
* `heading` stores its level as the string `"h1"`…`"h6"` (the source stores
  an arbitrary string there; `HeadingLevel` only provides the six values);
* `horizontalRule` is the frozen `HORIZONTAL_RULE` singleton, which is *not*
  an instance of `Element`;
* `list` holds its entries (`ListEntry` instances when built through the
  constructor), `ordered` and `ordered_start`;
* `listEntry` holds nodes, sublists and the ternary `checked` flag;
* `table` holds rows (index 0 is the head) and per-column alignments;
* `inlineLatex` is a block exactly when `display_mode` is true.
-/
inductive MDNode where
  | text (content : String)
  | emoji (id : String) (skinTone : Option Int)
  | inlineCode (content : String)
  | inlineLink (url : String)
  | comment (nodes : List MDNode)
  | italic (nodes : List MDNode)
  | bold (nodes : List MDNode)
  | underline (nodes : List MDNode)
  | strikethrough (nodes : List MDNode)
  | highlight (nodes : List MDNode)
  | spoiler (nodes : List MDNode)
  | link (url : String) (title : List MDNode) (tooltip : Option String) (refName : String)
  | image (url : String) (alt : List MDNode) (tooltip : Option String) (refName : String)
  | heading (nodes : List MDNode) (level : String)
  | paragraph (nodes : List MDNode)
  | blockCode (code : String) (language : Option String)
  | blockQuote (nodes : List MDNode)
  | horizontalRule
  | list (entries : List MDNode) (ordered : Bool) (orderedStart : Int)
  | listEntry (nodes : List MDNode) (sublists : List MDNode) (checked : Option Bool)
  | inlineHTML (nodes : List MDNode)
  | inlineLatex (raw : String) (displayMode : Bool)
  | table (rows : List MDNode) (alignments : List TableAlignment)
  | tableRow (columns : List MDNode)
  | tableEntry (nodes : List MDNode)
  | tableOfContents

/-- A `Reference` of markdown.mjs: a URL plus an optional tooltip
(`undefined` tooltip is modelled as `none`). -/
structure Reference where
  url : String
  tooltip : Option String
deriving DecidableEq, Repr

/-- An `MDDocument`: blocks plus the reference table (a list of
`{ name, ref }` records, as in the source). -/
structure MDDocument where
  blocks : List MDNode
  references : List (String × Reference)

/-- The `LINEBREAK` constant: `new Text("  \n")`. -/
def LINEBREAK : MDNode := .text "  \n"

/-- `Text#is_linebreak` lifted to nodes guarded by `instanceof Text`:
`node instanceof Text && node.is_linebreak()`.  `Emoji`, `InlineCode` and
`InlineLink` extend `Text` but override `is_linebreak` to `false`, so only a
plain `text` node with content `"  \n"` qualifies. -/
def isLinebreakText : MDNode → Bool
  | .text c => c = "  \n"
  | _ => false

/-- `purge_linebreaks` (markdown.mjs): drop the nodes for which
`node instanceof Text && node.is_linebreak()` holds. -/
def purge_linebreaks (nodes : List MDNode) : List MDNode :=
  nodes.filter (fun n => !isLinebreakText n)

/-- Constructor of `Strikethrough`: `super(content, false)` purges linebreaks. -/
def mkStrikethrough (nodes : List MDNode) : MDNode :=
  .strikethrough (purge_linebreaks nodes)

/-- Constructor of `Highlight`: `super(content, false)` purges linebreaks. -/
def mkHighlight (nodes : List MDNode) : MDNode :=
  .highlight (purge_linebreaks nodes)

/-- Constructor of `Spoiler`: `super(content, false)` purges linebreaks. -/
def mkSpoiler (nodes : List MDNode) : MDNode :=
  .spoiler (purge_linebreaks nodes)

/-- Constructor of `Heading`: `super(nodes, false)` purges linebreaks and the
level string is stored unchecked. -/
def mkHeading (nodes : List MDNode) (level : String) : MDNode :=
  .heading (purge_linebreaks nodes) level

/-- The `title` argument of the `Link`/`Image` constructor: in JavaScript it
may be `undefined`, a string, or a node array (a single node is wrapped into
an array by the `Element` constructor). -/
inductive LinkTitle where
  | undef
  | str (s : String)
  | nodes (ns : List MDNode)

/-- The always-successful node-array path of the `Link` constructor:
`super(title, false)` wraps string items into `Text` and purges linebreaks;
an `undefined` reference becomes `""` before `toLowerCase`, and
`Reference(url, tooltip)` is stored. -/
def mkLinkOfNodes (url : String) (ns : List MDNode) (tooltip : Option String)
    (reference : Option String) : MDNode :=
  .link url (purge_linebreaks ns) tooltip
    (match reference with | none => "" | some r => r.toLower)

/-- The node-array path of the `Image` constructor (the subclass adds
nothing over `Link`). -/
def mkImageOfNodes (url : String) (ns : List MDNode) (tooltip : Option String)
    (reference : Option String) : MDNode :=
  .image url (purge_linebreaks ns) tooltip
    (match reference with | none => "" | some r => r.toLower)

/-- Constructor of `Link` (markdown.mjs 436–445).  A node-array title follows
the `Element` path (`mkLinkOfNodes`); a non-empty string title is wrapped
into an array by the `Element` constructor and its item coerced to `Text`.
But when the title is `undefined` or `""`, the constructor substitutes
`title = new Text(url)` and calls `super(title, false)`: the `Element`
constructor (markdown.mjs 42–44) wraps only `typeof nodes === "string"` and
`nodes instanceof Element` into an array, and `Text extends Node`, not
`Element`, so the bare `Text` reaches `this.nodes = nodes.map(...)`, which
is not a function on it — construction throws a `TypeError` (`none`): the
title never becomes `[Text(url)]`. -/
def mkLink (url : String) (title : LinkTitle) (tooltip : Option String)
    (reference : Option String) : Option MDNode :=
  match title with
  | .undef => none
  | .str s => if s = "" then none else some (mkLinkOfNodes url [.text s] tooltip reference)
  | .nodes ns => some (mkLinkOfNodes url ns tooltip reference)

/-- Constructor of `Image`: same title handling as `Link`, including the
`TypeError` on an `undefined` or empty-string alt text. -/
def mkImage (url : String) (alt : LinkTitle) (tooltip : Option String)
    (reference : Option String) : Option MDNode :=
  match alt with
  | .undef => none
  | .str s => if s = "" then none else some (mkImageOfNodes url [.text s] tooltip reference)
  | .nodes ns => some (mkImageOfNodes url ns tooltip reference)

/-- Constructor of `ListEntry`: `super(nodes, false)` purges linebreaks;
a `null` sublists argument becomes `[]`. -/
def mkListEntry (nodes : List MDNode) (sublists : Option (List MDNode))
    (checked : Option Bool) : MDNode :=
  .listEntry (purge_linebreaks nodes) (sublists.getD []) checked

/-- Predicate: is this node a `ListEntry` instance? -/
def isListEntry : MDNode → Bool
  | .listEntry .. => true
  | _ => false

/-- Predicate: is this node a `List` instance? -/
def isListNode : MDNode → Bool
  | .list .. => true
  | _ => false

/-- Constructor of `List`: every entry that is not already a `ListEntry` is
wrapped into `new ListEntry([entry], null)`. -/
def mkList (entries : List MDNode) (ordered : Bool) (orderedStart : Int := 1) : MDNode :=
  .list (entries.map (fun e => if isListEntry e then e else mkListEntry [e] none none))
    ordered orderedStart

/-- `List#push`: a pushed `List` becomes `new ListEntry("", [node])` (whose
nodes are the single `Text("")` produced by coercing the string `""`); any
other non-`ListEntry` becomes `new ListEntry([node])`; then the node is
appended. A non-`list` receiver is returned unchanged (the method lives on
`List`). -/
def listPush (l : MDNode) (node : MDNode) : MDNode :=
  match l with
  | .list entries ordered start =>
    let node' :=
      if isListEntry node then node
      else if isListNode node then .listEntry [.text ""] [node] none
      else mkListEntry [node] none none
    .list (entries ++ [node']) ordered start
  | x => x

/-- `List#get_last`: `this.nodes[this.nodes.length - 1]` (`none` models the
`undefined` obtained on an empty list). -/
def listGetLast : MDNode → Option MDNode
  | .list entries _ _ => entries.getLast?
  | _ => none

/-- `Element#push` (the plain, non-overridden version used by the inline
containers): coerce strings to `Text` (not modelled: the argument is already
a node here) and append — *without* purging linebreaks. For variants that do
not store a node list the receiver is returned unchanged. -/
def elementPush (e : MDNode) (node : MDNode) : MDNode :=
  match e with
  | .comment ns => .comment (ns ++ [node])
  | .italic ns => .italic (ns ++ [node])
  | .bold ns => .bold (ns ++ [node])
  | .underline ns => .underline (ns ++ [node])
  | .strikethrough ns => .strikethrough (ns ++ [node])
  | .highlight ns => .highlight (ns ++ [node])
  | .spoiler ns => .spoiler (ns ++ [node])
  | .link u t tt r => .link u (t ++ [node]) tt r
  | .image u t tt r => .image u (t ++ [node]) tt r
  | .heading ns lv => .heading (ns ++ [node]) lv
  | .paragraph ns => .paragraph (ns ++ [node])
  | .blockQuote ns => .blockQuote (ns ++ [node])
  | .inlineHTML ns => .inlineHTML (ns ++ [node])
  | .tableRow ns => .tableRow (ns ++ [node])
  | .tableEntry ns => .tableEntry (ns ++ [node])
  | x => x

/-- The child-node list of a node, for the variants that are `Element`
instances in the source (`none` models the `undefined` of accessing `.nodes`
on a non-`Element`: plain `Text`-family nodes and `HORIZONTAL_RULE`). -/
def getNodes : MDNode → Option (List MDNode)
  | .text _ | .emoji .. | .inlineCode _ | .inlineLink _ | .horizontalRule => none
  | .comment ns | .italic ns | .bold ns | .underline ns | .strikethrough ns
  | .highlight ns | .spoiler ns | .paragraph ns | .blockQuote ns
  | .inlineHTML ns | .tableRow ns | .tableEntry ns => some ns
  | .link _ t _ _ => some t
  | .image _ t _ _ => some t
  | .heading ns _ => some ns
  | .list es _ _ => some es
  | .listEntry ns _ _ => some ns
  | .blockCode _ _ => some []
  | .inlineLatex _ _ => some []
  | .table rows _ => some rows
  | .tableOfContents => some []


/-- `to_string_with_linebreaks` (markdown.mjs): join the already-computed
child strings, inserting `" "` after every node except the last and except
linebreak `Text` nodes.  The pairs carry each node next to its string. -/
def toStringWithLinebreaks : List (MDNode × String) → String
  | [] => ""
  | [(_, s)] => s
  | (n, s) :: rest =>
    s ++ (if isLinebreakText n then "" else " ") ++ toStringWithLinebreaks rest

/-- `Reference#has_tooltip`: `this.tooltip && this.tooltip !== ""`. -/
def Reference.has_tooltip (r : Reference) : Bool :=
  match r.tooltip with
  | none => false
  | some t => t ≠ ""

/-- `Reference#toString`: the URL followed by the quoted tooltip if any. -/
def Reference.toStr (r : Reference) : String :=
  r.url ++ (if r.has_tooltip then " \"" ++ r.tooltip.getD "" ++ "\"" else "")

/-- The backtick character (used by `InlineCode#toString`). -/
def backtick : Char := Char.ofNat 96

/-- `TableAlignment#to_pretty_string(column_length)`: pad to at least 5, then
`left ++ "-"·(len−2) ++ right`. -/
def TableAlignment.toPrettyString (a : TableAlignment) (columnLength : Nat) : String :=
  let len := if columnLength < 5 then 5 else columnLength
  a.left ++ String.mk (List.replicate (len - 2) '-') ++ a.right

/-- Indent every line but the first with two spaces
(`List#toString` / `ListEntry#toString` continuation lines). -/
def indentContinuation (s : String) : String :=
  String.intercalate "\n" <|
    (s.splitOn "\n").enum.map (fun (i, line) => if i = 0 then line else "  " ++ line)

/-- Indent every line with two spaces (`ListEntry#toString` sublists). -/
def indentAll (s : String) : String :=
  String.intercalate "\n" <| (s.splitOn "\n").map (fun line => "  " ++ line)

/-- Keep only the first occurrence of each string
(`filter((v, i, arr) => arr.indexOf(v) === i)` in `MDDocument#toString`). -/
def dedupKeepFirst (l : List String) : List String :=
  (l.foldl (fun acc s => if s ∈ acc then acc else acc ++ [s]) [])

/-- Sequence a list of optional values: `none` as soon as one entry is
`none` (the `TypeError` of dereferencing an `undefined` array entry),
otherwise all the values. -/
def seqOpts : List (Option α) → Option (List α)
  | [] => some []
  | none :: _ => none
  | some a :: l => (seqOpts l).map (a :: ·)

/-- The child list extracted by `getNodes` is structurally no larger. -/
theorem sizeOf_getNodes {n : MDNode} {ns : List MDNode} (h : getNodes n = some ns) :
    sizeOf ns ≤ sizeOf n := by
  cases n <;> simp [getNodes] at h <;> (try subst h) <;> simp_arith

mutual

/--
The `toString` methods of markdown.mjs, variant by variant.  The result is
`none` when the JavaScript method throws:

* `Heading#toString` throws `Error` on a level outside `"h1"`…`"h6"`;
* `Table#toString` evaluates `this.get_head().nodes`, a `TypeError` when the
  table has no rows or its head is not an `Element`.

Everything else is total; a thrown error propagates through the `.map` /
string concatenations of the enclosing calls, which the `Option` bind models.
-/
def nodeToString : MDNode → Option String
  | .text c => some c
  | .emoji id st =>
    some <| match st with
      | some tone => ":" ++ id ++ "::skin-tone-" ++ toString tone ++ ":"
      | none => ":" ++ id ++ ":"
  | .inlineCode c =>
    some <| if c.contains backtick then "\x60\x60\x60" ++ c ++ "\x60\x60\x60"
      else "\x60" ++ c ++ "\x60"
  | .inlineLink url => some url
  | .comment ns => do pure (String.join (← nodesToString ns))
  | .italic ns => do
    let s := String.join (← nodesToString ns)
    pure <| if s.contains '*' then "_" ++ s ++ "_" else "*" ++ s ++ "*"
  | .bold ns => do pure ("**" ++ String.join (← nodesToString ns) ++ "**")
  | .underline ns => do pure ("__" ++ String.join (← nodesToString ns) ++ "__")
  | .strikethrough ns => do pure ("~~" ++ String.join (← nodesToString ns) ++ "~~")
  | .highlight ns => do pure ("==" ++ String.join (← nodesToString ns) ++ "==")
  | .spoiler ns => do pure ("||" ++ String.join (← nodesToString ns) ++ "||")
  | .link url title tooltip refName => do
    let t := String.join (← nodesToString title)
    if refName ≠ "" then
      if refName = t then pure ("[" ++ t ++ "]")
      else pure ("[" ++ t ++ "][" ++ refName ++ "]")
    else pure ("[" ++ t ++ "](" ++ Reference.toStr ⟨url, tooltip⟩ ++ ")")
  | .image url alt tooltip refName => do
    let t := String.join (← nodesToString alt)
    if refName ≠ "" then
      if refName = t then pure ("![" ++ t ++ "]")
      else pure ("![" ++ t ++ "][" ++ refName ++ "]")
    else pure ("![" ++ t ++ "](" ++ Reference.toStr ⟨url, tooltip⟩ ++ ")")
  | .heading ns level => do
    let content := String.intercalate " " (← nodesToString ns)
    match level with
    | "h1" => pure ("# " ++ content)
    | "h2" => pure ("## " ++ content)
    | "h3" => pure ("### " ++ content)
    | "h4" => pure ("#### " ++ content)
    | "h5" => pure ("##### " ++ content)
    | "h6" => pure ("###### " ++ content)
    | _ => none
  | .paragraph ns => do pure (String.join (← nodesToString ns))
  | .blockCode code language =>
    let hasLang : Bool := match language with | some l => l != "" | none => false
    some ("\x60\x60\x60" ++ (if hasLang then language.getD "" ++ "\n" else "\n")
      ++ code ++ "\n\x60\x60\x60")
  | .blockQuote ns => do
    let ss ← nodesToString ns
    let joined := toStringWithLinebreaks (ns.zip ss)
    pure <| String.intercalate "\n" ((joined.splitOn "\n").map (fun q => "> " ++ q))
  | .horizontalRule => some "---"
  | .list entries ordered start => do
    let ss ← nodesToString entries
    let numbered := ss.enum.map (fun (i, s) =>
      if ordered then toString ((i : Int) + start) ++ ". " ++ s else "- " ++ s)
    pure <| String.intercalate "\n" (numbered.map indentContinuation)
  | .listEntry ns sublists checked => do
    let content := String.intercalate "\n" (← nodesToString ns)
    let content := match checked with
      | some true => "[x] " ++ content
      | some false => "[ ] " ++ content
      | none => content
    if sublists.length > 0 then
      let subs ← nodesToString sublists
      pure (content ++ "\n" ++ String.intercalate "\n" (subs.map indentAll))
    else pure content
  | .inlineHTML ns => do pure (String.join (← nodesToString ns))
  | .inlineLatex raw displayMode =>
    some <| if displayMode then "$$\n" ++ raw ++ "\n$$" else "$" ++ raw ++ "$"
  | .table rows alignments =>
    match rows with
    | [] => none
    | head :: body =>
    match hh : getNodes head with
    | none => none
    | some headNodes => do
      let headColumns ← nodesToString headNodes
      let alignLine := "|" ++ String.intercalate "|"
          (alignments.enum.map (fun (i, a) =>
            a.toPrettyString (match headColumns.get? i with
              | some s => if s = "" then 5 else s.length + 2
              | none => 5)))
        ++ "|"
      let bodyStrs ← nodesToString body
      pure ("| " ++ String.intercalate " | " headColumns ++ " |\n" ++ alignLine
        ++ "\n" ++ String.intercalate "\n" bodyStrs)
  | .tableRow columns => do
    pure ("| " ++ String.intercalate " | " (← nodesToString columns) ++ " |")
  | .tableEntry ns => do pure (String.join (← nodesToString ns))
  | .tableOfContents => some "[[ToC]]"

termination_by n => sizeOf n
decreasing_by
  all_goals simp_wf
  all_goals try omega
  all_goals (have h1 := sizeOf_getNodes hh; omega)

/-- `toString` mapped over a node list, propagating a thrown error. -/
def nodesToString : List MDNode → Option (List String)
  | [] => some []
  | n :: ns => do pure ((← nodeToString n) :: (← nodesToString ns))
termination_by l => sizeOf l

end

/-- A named reference record `{ name, ref }` as produced by `get_references`
and stored in `MDDocument.references`. -/
structure NamedRef where
  name : String
  ref : Reference

/-- The possible results of `get_references(element)` in markdown.mjs:
`undefined` (the function falls through without returning), a single
`{ name, ref }` record (a `Link`/`Image` with a non-empty `ref_name`), or a
flattened array (any other `Element`). -/
inductive GetRefsResult where
  | undef
  | single (r : NamedRef)
  | arr (rs : List NamedRef)

mutual

/-- `get_references` (markdown.mjs 980–991).  A `Link`/`Image` with non-empty
`ref_name` yields its record; one with empty `ref_name` falls through to
`undefined` (the `else if` is not evaluated for `Link` instances); any other
`Element` maps over its children, filters out `undefined` and flattens; a
non-`Element` (`Text` family, `HORIZONTAL_RULE`) yields `undefined`. -/
def get_references : MDNode → GetRefsResult
  | .link url _ tooltip refName =>
    if refName ≠ "" then .single ⟨refName, ⟨url, tooltip⟩⟩ else .undef
  | .image url _ tooltip refName =>
    if refName ≠ "" then .single ⟨refName, ⟨url, tooltip⟩⟩ else .undef
  | .text _ | .emoji .. | .inlineCode _ | .inlineLink _ | .horizontalRule => .undef
  | .comment ns => .arr (get_references_list ns)
  | .italic ns => .arr (get_references_list ns)
  | .bold ns => .arr (get_references_list ns)
  | .underline ns => .arr (get_references_list ns)
  | .strikethrough ns => .arr (get_references_list ns)
  | .highlight ns => .arr (get_references_list ns)
  | .spoiler ns => .arr (get_references_list ns)
  | .heading ns _ => .arr (get_references_list ns)
  | .paragraph ns => .arr (get_references_list ns)
  | .blockCode _ _ => .arr []
  | .blockQuote ns => .arr (get_references_list ns)
  | .list es _ _ => .arr (get_references_list es)
  | .listEntry ns _ _ => .arr (get_references_list ns)
  | .inlineHTML ns => .arr (get_references_list ns)
  | .inlineLatex _ _ => .arr []
  | .table rows _ => .arr (get_references_list rows)
  | .tableRow cs => .arr (get_references_list cs)
  | .tableEntry ns => .arr (get_references_list ns)
  | .tableOfContents => .arr []

/-- `element.nodes.map(get_references).filter(≠ undefined).flat()`:
a single record stays, an array is flattened one level. -/
def get_references_list : List MDNode → List NamedRef
  | [] => []
  | n :: ns =>
    (match get_references n with
      | .undef => []
      | .single r => [r]
      | .arr rs => rs) ++ get_references_list ns

end

/-- One step of `references = references.concat(get_references(block))` in
`MDDocument#toString`.  `Array.prototype.concat` appends a non-array argument
as a single element — including the `undefined` returned for a top-level
block that is not an `Element` — so the accumulator holds *optional* records,
`none` standing for such an `undefined` entry. -/
def concatRefs (acc : List (Option NamedRef)) : GetRefsResult → List (Option NamedRef)
  | .undef => acc ++ [none]
  | .single r => acc ++ [some r]
  | .arr rs => acc ++ rs.map some

/-- `MDDocument#toString` (markdown.mjs 1051–1057).  Returns `none` when the
method throws: either a child `toString` throws (invalid heading level,
malformed table) or the accumulated reference array contains an `undefined`
entry, in which case `ref.ref.url` inside the `filter` callback raises a
`TypeError`. -/
def docToString (doc : MDDocument) : Option String := do
  let references := (doc.references.map (fun r => some (⟨r.1, r.2⟩ : NamedRef)))
  let references := doc.blocks.foldl (fun acc b => concatRefs acc (get_references b)) references
  let bodyParts ← nodesToString doc.blocks
  let body := String.intercalate "\n" (bodyParts.map (fun s => s ++ "\n"))
  if references.isEmpty then
    pure body
  else
    -- `references.filter(ref => ref.ref.url !== undefined)`: accessing `.ref`
    -- on an `undefined` entry throws a TypeError; `url` is always a defined
    -- string in this model, so the filter keeps every surviving record.
    let refs ← seqOpts references
    let lines := dedupKeepFirst (refs.map (fun r => "[" ++ r.name ++ "]: " ++ r.ref.toStr))
    pure (body ++ "\n" ++ String.intercalate "\n" lines ++ "\n")

mutual

/-- `Element#as_plain_text`: concatenate the `content` of `Text`-family
children and recurse into `Element` children.  `none` models the `TypeError`
of calling `as_plain_text` on a node that is neither (`HORIZONTAL_RULE`). -/
def asPlainText : MDNode → Option String
  | .text c => some c
  | .emoji id _ => some id
  | .inlineCode c => some c
  | .inlineLink url => some url
  | .horizontalRule => none
  | .comment ns => asPlainTextList ns
  | .italic ns => asPlainTextList ns
  | .bold ns => asPlainTextList ns
  | .underline ns => asPlainTextList ns
  | .strikethrough ns => asPlainTextList ns
  | .highlight ns => asPlainTextList ns
  | .spoiler ns => asPlainTextList ns
  | .link _ t _ _ => asPlainTextList t
  | .image _ t _ _ => asPlainTextList t
  | .heading ns _ => asPlainTextList ns
  | .paragraph ns => asPlainTextList ns
  | .blockCode _ _ => some ""
  | .blockQuote ns => asPlainTextList ns
  | .list es _ _ => asPlainTextList es
  | .listEntry ns _ _ => asPlainTextList ns
  | .inlineHTML ns => asPlainTextList ns
  | .inlineLatex _ _ => some ""
  | .table rows _ => asPlainTextList rows
  | .tableRow cs => asPlainTextList cs
  | .tableEntry ns => asPlainTextList ns
  | .tableOfContents => some ""

/-- `as_plain_text` mapped over children and joined with `""`. -/
def asPlainTextList : List MDNode → Option String
  | [] => some ""
  | n :: ns => do pure ((← asPlainText n) ++ (← asPlainTextList ns))

end

/-- The punctuation (`uriMark`, `uriReserved` and `#`) the ECMAScript
builtin `encodeURI` leaves unescaped. -/
def uriPunctChars : List Char :=
  ['-', '_', '.', '!', '~', '*', '\'', '(', ')',
   ';', '/', '?', ':', '@', '&', '=', '+', '$', ',', '#']

/-- The characters the ECMAScript builtin `encodeURI` leaves unescaped:
`uriAlpha`, `DecimalDigit`, `uriMark`, `uriReserved` and `#`.
(`Heading#get_id` applies `encodeURI` to the heading's plain text.) -/
def uriUnescaped (c : Char) : Bool :=
  ('A' ≤ c && c ≤ 'Z') || ('a' ≤ c && c ≤ 'z') || ('0' ≤ c && c ≤ '9') ||
  c ∈ uriPunctChars

/-- The sixteen uppercase hexadecimal digit characters, indexed 0–15. -/
def hexDigits : List Char :=
  ['0', '1', '2', '3', '4', '5', '6', '7', '8', '9', 'A', 'B', 'C', 'D', 'E', 'F']

/-- Uppercase hexadecimal digit of a value below 16. -/
def hexDigit (m : Nat) : Char := hexDigits.getD m '0'

/-- The UTF-8 bytes of a Unicode scalar value, as natural numbers
(used by `encodeURI` to percent-encode a non-URI character). -/
def utf8Bytes (n : Nat) : List Nat :=
  if n < 0x80 then [n]
  else if n < 0x800 then [0xC0 + n / 64, 0x80 + n % 64]
  else if n < 0x10000 then [0xE0 + n / 4096, 0x80 + n / 64 % 64, 0x80 + n % 64]
  else [0xF0 + n / 262144, 0x80 + n / 4096 % 64, 0x80 + n / 64 % 64, 0x80 + n % 64]

/-- Percent-escape of a single byte: `%` followed by two uppercase hex digits. -/
def percentByte (b : Nat) : List Char :=
  ['%', hexDigit (b / 16), hexDigit (b % 16)]

/-- The ECMAScript builtin `encodeURI` on one character: kept verbatim when in
the unescaped set, otherwise replaced by the percent-escapes of its UTF-8
bytes.  (Lone surrogates, on which the builtin throws, cannot occur in a
Lean `String`.) -/
def encodeURIChar (c : Char) : List Char :=
  if uriUnescaped c then [c] else (utf8Bytes c.toNat).flatMap percentByte

/-- The ECMAScript builtin `encodeURI`, character by character. -/
def encodeURIChars (cs : List Char) : List Char := cs.flatMap encodeURIChar

/-- `.replace(/%20/g, "-")`: left-to-right, non-overlapping replacement of
every `%20` by `-`. -/
def replacePercent20 : List Char → List Char
  | '%' :: '2' :: '0' :: rest => '-' :: replacePercent20 rest
  | c :: rest => c :: replacePercent20 rest
  | [] => []

/-- `toLocaleLowerCase` on one character.  `encodeURI` output is ASCII, so
ASCII lowering is exact on the domain where `Heading#get_id` applies it. -/
def jsLower (c : Char) : Char :=
  if 'A' ≤ c ∧ c ≤ 'Z' then Char.ofNat (c.toNat + 32) else c

/-- `Heading#get_id` (markdown.mjs 529–531):
`encodeURI(this.as_plain_text()).replace(/%20/g, "-").toLocaleLowerCase()`,
starting from the heading's child nodes.  `none` models a thrown error in
`as_plain_text` (impossible for ordinary inline children). -/
def getId (nodes : List MDNode) : Option String := do
  let plain ← asPlainTextList nodes
  pure (String.mk ((replacePercent20 (encodeURIChars plain.data)).map jsLower))

/-- A JSON value, as produced by `JSON.stringify` from the `toJSON` methods.
Object fields appear in insertion order; fields whose value is `undefined`
(e.g. an absent tooltip) are dropped by `JSON.stringify` and therefore do not
appear at all. -/
inductive Json where
  | str (s : String)
  | num (n : Int)
  | bool (b : Bool)
  | null
  | arr (l : List Json)
  | obj (kvs : List (String × Json))

mutual

/-- The `toJSON` methods of markdown.mjs, with `JSON.stringify` recursion:
child node arrays are serialized recursively, `undefined` fields are dropped,
`null` fields are kept.  `md.Comment` defines no `toJSON`, so `JSON.stringify`
falls back to its enumerable own property `nodes`, producing an *untagged*
object — the `"comment"` kind does not exist in the schema. -/
def toJson : MDNode → Json
  | .text c => if c = "  \n" then .obj [("type", .str "linebreak")] else .str c
  | .emoji id st =>
    match st with
    | some tone => .obj [("type", .str "emoji"), ("content", .str id), ("skin_tone", .num tone)]
    | none => .obj [("type", .str "emoji"), ("content", .str id)]
  | .inlineCode c => .obj [("type", .str "inline_code"), ("content", .str c)]
  | .inlineLink url => .obj [("type", .str "inline_link"), ("content", .str url)]
  | .comment ns => .obj [("nodes", .arr (toJsonList ns))]
  | .italic ns => .obj [("type", .str "italic"), ("nodes", .arr (toJsonList ns))]
  | .bold ns => .obj [("type", .str "bold"), ("nodes", .arr (toJsonList ns))]
  | .underline ns => .obj [("type", .str "underline"), ("nodes", .arr (toJsonList ns))]
  | .strikethrough ns => .obj [("type", .str "strikethrough"), ("nodes", .arr (toJsonList ns))]
  | .highlight ns => .obj [("type", .str "highlight"), ("nodes", .arr (toJsonList ns))]
  | .spoiler ns => .obj [("type", .str "spoiler"), ("nodes", .arr (toJsonList ns))]
  | .link url title tooltip refName =>
    .obj ([("type", .str "link"), ("url", .str url), ("title", .arr (toJsonList title))]
      ++ (match tooltip with | some t => [("tooltip", Json.str t)] | none => [])
      ++ [("ref_name", .str refName)])
  | .image url alt tooltip refName =>
    .obj ([("type", .str "image"), ("url", .str url), ("alt", .arr (toJsonList alt))]
      ++ (match tooltip with | some t => [("tooltip", Json.str t)] | none => [])
      ++ [("ref_name", .str refName)])
  | .heading ns level =>
    .obj [("type", .str "heading"), ("level", .str level), ("nodes", .arr (toJsonList ns))]
  | .paragraph ns => .obj [("type", .str "paragraph"), ("nodes", .arr (toJsonList ns))]
  | .blockCode code language =>
    .obj ([("type", .str "block_code"), ("code", .str code)]
      ++ (match language with | some l => [("language", Json.str l)] | none => []))
  | .blockQuote ns => .obj [("type", .str "quote"), ("nodes", .arr (toJsonList ns))]
  | .horizontalRule => .obj [("type", .str "horizontal_rule")]
  | .list entries ordered start =>
    .obj [("type", .str "list"), ("entries", .arr (toJsonList entries)),
      ("ordered", .bool ordered), ("ordered_start", .num start)]
  | .listEntry ns sublists checked =>
    .obj [("type", .str "list_entry"), ("nodes", .arr (toJsonList ns)),
      ("sublists", .arr (toJsonList sublists)),
      ("checked", match checked with | some b => Json.bool b | none => Json.null)]
  | .inlineHTML ns => .obj [("type", .str "inline_html"), ("content", .arr (toJsonList ns))]
  | .inlineLatex raw displayMode =>
    .obj [("type", .str "inline_latex"), ("raw", .str raw), ("display_mode", .bool displayMode)]
  | .table rows alignments =>
    .obj [("type", .str "table"), ("rows", .arr (toJsonList rows)),
      ("alignments", .arr (alignments.map (fun a => Json.str a.name)))]
  | .tableRow columns => .obj [("type", .str "table_row"), ("columns", .arr (toJsonList columns))]
  | .tableEntry ns => .obj [("type", .str "table_entry"), ("nodes", .arr (toJsonList ns))]
  | .tableOfContents => .obj [("type", .str "table_of_contents")]

/-- `toJSON` mapped over a node array. -/
def toJsonList : List MDNode → List Json
  | [] => []
  | n :: ns => toJson n :: toJsonList ns

end

/-- `MDDocument#toJSON`: blocks plus the reference records
`{ name, ref: { url, tooltip? } }`. -/
def docToJson (doc : MDDocument) : Json :=
  .obj [("blocks", .arr (toJsonList doc.blocks)),
    ("references", .arr (doc.references.map (fun r =>
      Json.obj [("name", .str r.1),
        ("ref", .obj ([("url", Json.str r.2.url)]
          ++ (match r.2.tooltip with | some t => [("tooltip", Json.str t)] | none => [])))])))]

/-- Decoding of an alignment name (the serialized `TableAlignment.name`). -/
def alignmentOfName : String → Option TableAlignment
  | "none" => some .NONE
  | "left" => some .LEFT
  | "center" => some .CENTER
  | "right" => some .RIGHT
  | _ => none

/-- Decoding of a serialized alignment array. -/
def alignmentsFromJson : List Json → Option (List TableAlignment)
  | [] => some []
  | .str s :: rest => do pure ((← alignmentOfName s) :: (← alignmentsFromJson rest))
  | _ => none

mutual

/-- Modelled from the spec: `from_json` is not part of src/ (only `to_json` /
`toJSON` is); §6 of the spec defines the JSON schema of tagged
`{ type: "<kind>", … }` objects with plain `Text` as a bare string and
requires `from_json(to_json(node)) == node`.  This decoder accepts exactly
the shapes `toJson` emits for each kind listed in the schema; an object
without a recognized `type` tag (such as the untagged output of a
`md.Comment`) decodes to `none`. -/
def fromJson : Json → Option MDNode
  | .str s => some (.text s)
  | .obj (("type", .str tag) :: rest) => decodeTagged tag rest
  | _ => none

/-- Modelled from the spec: dispatch on the `type` tag of a serialized node;
`rest` is the field list after the tag. -/
def decodeTagged (tag : String) (rest : List (String × Json)) : Option MDNode :=
  if tag = "linebreak" then
    match rest with | [] => some (.text "  \n") | _ => none
  else if tag = "emoji" then
    match rest with
    | [("content", .str id)] => some (.emoji id none)
    | [("content", .str id), ("skin_tone", .num tone)] => some (.emoji id (some tone))
    | _ => none
  else if tag = "inline_code" then
    match rest with | [("content", .str c)] => some (.inlineCode c) | _ => none
  else if tag = "inline_link" then
    match rest with | [("content", .str u)] => some (.inlineLink u) | _ => none
  else if tag = "italic" then
    match rest with
    | [("nodes", .arr l)] => do pure (.italic (← fromJsonList l))
    | _ => none
  else if tag = "bold" then
    match rest with
    | [("nodes", .arr l)] => do pure (.bold (← fromJsonList l))
    | _ => none
  else if tag = "underline" then
    match rest with
    | [("nodes", .arr l)] => do pure (.underline (← fromJsonList l))
    | _ => none
  else if tag = "strikethrough" then
    match rest with
    | [("nodes", .arr l)] => do pure (.strikethrough (← fromJsonList l))
    | _ => none
  else if tag = "highlight" then
    match rest with
    | [("nodes", .arr l)] => do pure (.highlight (← fromJsonList l))
    | _ => none
  else if tag = "spoiler" then
    match rest with
    | [("nodes", .arr l)] => do pure (.spoiler (← fromJsonList l))
    | _ => none
  else if tag = "link" then
    match rest with
    | [("url", .str u), ("title", .arr l), ("ref_name", .str r)] => do
      pure (.link u (← fromJsonList l) none r)
    | [("url", .str u), ("title", .arr l), ("tooltip", .str tt), ("ref_name", .str r)] => do
      pure (.link u (← fromJsonList l) (some tt) r)
    | _ => none
  else if tag = "image" then
    match rest with
    | [("url", .str u), ("alt", .arr l), ("ref_name", .str r)] => do
      pure (.image u (← fromJsonList l) none r)
    | [("url", .str u), ("alt", .arr l), ("tooltip", .str tt), ("ref_name", .str r)] => do
      pure (.image u (← fromJsonList l) (some tt) r)
    | _ => none
  else if tag = "heading" then
    match rest with
    | [("level", .str level), ("nodes", .arr l)] => do
      pure (.heading (← fromJsonList l) level)
    | _ => none
  else if tag = "paragraph" then
    match rest with
    | [("nodes", .arr l)] => do pure (.paragraph (← fromJsonList l))
    | _ => none
  else if tag = "block_code" then
    match rest with
    | [("code", .str code)] => some (.blockCode code none)
    | [("code", .str code), ("language", .str l)] => some (.blockCode code (some l))
    | _ => none
  else if tag = "quote" then
    match rest with
    | [("nodes", .arr l)] => do pure (.blockQuote (← fromJsonList l))
    | _ => none
  else if tag = "horizontal_rule" then
    match rest with | [] => some .horizontalRule | _ => none
  else if tag = "list" then
    match rest with
    | [("entries", .arr l), ("ordered", .bool o), ("ordered_start", .num st)] => do
      pure (.list (← fromJsonList l) o st)
    | _ => none
  else if tag = "list_entry" then
    match rest with
    | [("nodes", .arr l), ("sublists", .arr sl), ("checked", c)] => do
      let checked ← match c with
        | Json.bool b => some (some b)
        | Json.null => some none
        | _ => none
      pure (.listEntry (← fromJsonList l) (← fromJsonList sl) checked)
    | _ => none
  else if tag = "inline_html" then
    match rest with
    | [("content", .arr l)] => do pure (.inlineHTML (← fromJsonList l))
    | _ => none
  else if tag = "inline_latex" then
    match rest with
    | [("raw", .str raw), ("display_mode", .bool dm)] => some (.inlineLatex raw dm)
    | _ => none
  else if tag = "table" then
    match rest with
    | [("rows", .arr l), ("alignments", .arr al)] => do
      pure (.table (← fromJsonList l) (← alignmentsFromJson al))
    | _ => none
  else if tag = "table_row" then
    match rest with
    | [("columns", .arr l)] => do pure (.tableRow (← fromJsonList l))
    | _ => none
  else if tag = "table_entry" then
    match rest with
    | [("nodes", .arr l)] => do pure (.tableEntry (← fromJsonList l))
    | _ => none
  else if tag = "table_of_contents" then
    match rest with | [] => some .tableOfContents | _ => none
  else none

/-- Decoding of a serialized node array. -/
def fromJsonList : List Json → Option (List MDNode)
  | [] => some []
  | j :: js => do pure ((← fromJson j) :: (← fromJsonList js))

end

/-- Modelled from the spec: decoding of one serialized reference record
`{ name, ref: { url, tooltip? } }`. -/
def refFromJson : Json → Option (String × Reference)
  | .obj [("name", .str n), ("ref", .obj [("url", .str u)])] => some (n, ⟨u, none⟩)
  | .obj [("name", .str n), ("ref", .obj [("url", .str u), ("tooltip", .str t)])] =>
    some (n, ⟨u, some t⟩)
  | _ => none

/-- Modelled from the spec: decoding of a serialized reference array. -/
def refsFromJson : List Json → Option (List (String × Reference))
  | [] => some []
  | j :: js => do pure ((← refFromJson j) :: (← refsFromJson js))

/-- Modelled from the spec: `from_json` on a whole serialized `MDDocument`. -/
def docFromJson : Json → Option MDDocument
  | .obj [("blocks", .arr bs), ("references", .arr rs)] => do
    pure ⟨← fromJsonList bs, ← refsFromJson rs⟩
  | _ => none

/-- Predicate: is this block a `Heading` instance? -/
def isHeading : MDNode → Bool
  | .heading .. => true
  | _ => false

/-- `parseInt(heading.level[1])` for the valid levels `"h1"`…`"h6"`: the
digit at index 1.  (On a malformed level string the source computes `NaN`
and its `while (!current[level - 1]) level--` loop never terminates; this
model is only applied to digits, which is all the theorems use.) -/
def headingDigit (level : String) : Nat :=
  match level.data.get? 1 with
  | some c => if c.isDigit then c.toNat - 48 else 0
  | none => 0

/-- `push_heading` inside `TableOfContents#as_list`:
`new ListEntry([new Paragraph([new Link("#" + heading.get_id(), heading.nodes)])])`.
`get_id` cannot throw here (`as_list` only feeds `Heading` children, and a
heading's plain text is total); `""` is used in the impossible error case. -/
def tocEntry (nodes : List MDNode) : MDNode :=
  mkListEntry
    [.paragraph [mkLinkOfNodes ("#" ++ (getId nodes).getD "") nodes none none]]
    none none

/-- Replace the last element of a list (no-op on an empty list, mirroring an
update through `array[array.length - 1]`). -/
def updateLast (l : List MDNode) (f : MDNode → MDNode) : List MDNode :=
  match l with
  | [] => []
  | [x] => [f x]
  | x :: xs => x :: updateLast xs f

/-- Insertion of a fresh `ListEntry` at depth `d` of the rightmost spine of
the entry forest built by `as_list`.  `d = 1` pushes at the current level;
`d = 2` pushes into the last sublist of the last entry, creating the sublist
(`parent.sublists.push(new List([], true))`) when there is none — exactly
the `parent_list` manipulation of the source; deeper `d` first descends into
the last sublist of the last entry.  The `current` array of the source is the
rightmost spine of this forest, so the imperative pushes through `current`
coincide with this functional update. -/
def tocInsert : Nat → List MDNode → MDNode → List MDNode
  | 0, entries, e => entries ++ [e]
  | 1, entries, e => entries ++ [e]
  | 2, entries, e =>
    updateLast entries (fun ent =>
      match ent with
      | .listEntry ns subs ch =>
        let subs := if subs.isEmpty then [.list [] true 1] else subs
        .listEntry ns (updateLast subs (fun sl =>
          match sl with
          | .list es o s => .list (es ++ [e]) o s
          | x => x)) ch
      | x => x)
  | d + 3, entries, e =>
    updateLast entries (fun ent =>
      match ent with
      | .listEntry ns subs ch =>
        .listEntry ns (updateLast subs (fun sl =>
          match sl with
          | .list es o s => .list (tocInsert (d + 2) es e) o s
          | x => x)) ch
      | x => x)

/-- One iteration of the `headings.forEach` loop of `as_list`.  The state is
the root entry list plus `current.length`; `current` itself is always the
rightmost spine of the forest, so it is determined by the state.  The
`while (!current[level - 1]) level--` clamp becomes `min level len`, and both
the `level === 1` reset (`current = [list]; current[1] = …`) and the
`current.splice(level)` truncation leave `current.length = level + 1`. -/
def tocStep (allowH1 : Bool) (st : List MDNode × Nat) (h : MDNode) : List MDNode × Nat :=
  match h with
  | .heading ns level =>
    let lvl0 := headingDigit level
    let lvl0 := if allowH1 then lvl0 else lvl0 - 1
    let lvl := if lvl0 = 1 then 1 else min lvl0 st.2
    if lvl = 1 then (st.1 ++ [tocEntry ns], 2)
    else (tocInsert lvl st.1 (tocEntry ns), lvl + 1)
  | _ => st

/-- `TableOfContents#as_list` (markdown.mjs 917–963): filter the document's
headings, decide `allow_h1` (strictly more than one `h1`), *remove* the `h1`
headings when `allow_h1` is false, then insert an entry per heading at its
(possibly demoted, possibly clamped) depth.  The result is the ordered root
`new List([], true)`. -/
def tocAsList (doc : MDDocument) : MDNode :=
  let headings := doc.blocks.filter isHeading
  let allowH1 := (headings.filter (fun h =>
    match h with | .heading _ level => level = "h1" | _ => false)).length > 1
  let headings := if allowH1 then headings
    else headings.filter (fun h =>
      match h with | .heading _ level => level ≠ "h1" | _ => true)
  let st := headings.foldl (tocStep allowH1) ([], 1)
  .list st.1 true 1

/-! ### The HTML AST

`html.mjs` itself is not part of src/; the declarations below are modelled
from the spec (§3.1 HTML AST, §4.1 serializer, §4.2 sanitizer, §4.3
micro-parser), with the shapes the renderer relies on. -/

/-- Modelled from the spec: the text escaping mode of an HTML `Text` node
(§3.1): `NORMAL` escapes `&<>`, `RAW` passes through, `CODE` escapes `<>`
but not `&`. -/
inductive TextMode where
  | NORMAL
  | RAW
  | CODE
deriving DecidableEq, Repr

/-- Modelled from the spec: an attribute value is a plain string, a
space-delimited token list (`class`), a style map, or a valueless boolean
attribute such as `checked` (§3.1). -/
inductive AttrValue where
  | str (s : String)
  | tokens (ts : List String)
  | style (kvs : List (String × String))
  | flag
deriving DecidableEq, Repr

/-- Modelled from the spec: an HTML node is an `Element` (tag, ordered
attributes, ordered children), a `Text` with a mode, or a `Comment` (§3.1). -/
inductive HtmlNode where
  | element (tag : String) (attributes : List (String × AttrValue)) (children : List HtmlNode)
  | text (content : String) (mode : TextMode)
  | comment (content : String)

/-- Modelled from the spec: the void tags, which serialize self-closing and
hold no children (§4.1). -/
def voidTags : List String := ["br", "hr", "img", "input", "meta", "link"]

/-- `instanceof html.Element`. -/
def HtmlNode.isElement : HtmlNode → Bool
  | .element .. => true
  | _ => false

/-- `instanceof html.Text` — in html.mjs `Comment` extends `Text` (the
renderer tests `element instanceof html.Text && !(element instanceof
html.Comment)`), so both variants qualify. -/
def HtmlNode.isText : HtmlNode → Bool
  | .text .. => true
  | .comment _ => true
  | _ => false

/-- Modelled from the spec: set an attribute, keeping attribute names unique
(replace an existing binding, else append) (§3.1). -/
def setAttr (attrs : List (String × AttrValue)) (name : String) (v : AttrValue) :
    List (String × AttrValue) :=
  if attrs.any (fun a => a.1 = name) then
    attrs.map (fun a => if a.1 = name then (name, v) else a)
  else attrs ++ [(name, v)]

/-- `Element#with_attr` / `Element#attr(name, value)` on an element;
other nodes are unchanged. -/
def HtmlNode.withAttr (n : HtmlNode) (name : String) (v : AttrValue) : HtmlNode :=
  match n with
  | .element t attrs ch => .element t (setAttr attrs name v) ch
  | x => x

/-- Modelled from the spec: `Element#style(key, value)` updates the `style`
attribute's style map (§3.1). -/
def HtmlNode.withStyle (n : HtmlNode) (key value : String) : HtmlNode :=
  match n with
  | .element t attrs ch =>
    let cur := match attrs.lookup "style" with
      | some (.style kvs) => kvs
      | _ => []
    .element t (setAttr attrs "style" (.style (cur ++ [(key, value)]))) ch
  | x => x

/-- Modelled from the spec: append a token to the `class` attribute,
merging without duplicates (§3.1). -/
def HtmlNode.addClassToken (n : HtmlNode) (tok : String) : HtmlNode :=
  match n with
  | .element t attrs ch =>
    let cur := match attrs.lookup "class" with
      | some (.tokens ts) => ts
      | some (.str s) => s.splitOn " "
      | _ => []
    .element t (setAttr attrs "class" (.tokens (if tok ∈ cur then cur else cur ++ [tok]))) ch
  | x => x

/-- `Element#append_child` with the string-to-`Text(NORMAL)` coercion. -/
def HtmlNode.appendChild (n : HtmlNode) (c : HtmlNode) : HtmlNode :=
  match n with
  | .element t attrs ch => .element t attrs (ch ++ [c])
  | x => x

/-- Modelled from the spec: escaping of `NORMAL` text — `&` → `&amp;`,
`<` → `&lt;`, `>` → `&gt;` (§4.1). -/
def escapeNormal (s : String) : String :=
  String.join (s.data.map (fun c =>
    if c = '&' then "&amp;" else if c = '<' then "&lt;"
    else if c = '>' then "&gt;" else String.mk [c]))

/-- Modelled from the spec: escaping of `CODE` text — `<` and `>` only,
ampersands pass through (§4.1). -/
def escapeCode (s : String) : String :=
  String.join (s.data.map (fun c =>
    if c = '<' then "&lt;" else if c = '>' then "&gt;" else String.mk [c]))

/-- Modelled from the spec: escaping of attribute values — `"` → `&quot;`
and `&` → `&amp;` (§4.1). -/
def escapeAttr (s : String) : String :=
  String.join (s.data.map (fun c =>
    if c = '"' then "&quot;" else if c = '&' then "&amp;" else String.mk [c]))

/-- Serialization of one attribute. -/
def attrToString (a : String × AttrValue) : String :=
  match a.2 with
  | .str s => a.1 ++ "=\"" ++ escapeAttr s ++ "\""
  | .tokens ts => a.1 ++ "=\"" ++ escapeAttr (String.intercalate " " ts) ++ "\""
  | .style kvs => a.1 ++ "=\""
      ++ escapeAttr (String.join (kvs.map (fun kv => kv.1 ++ ": " ++ kv.2 ++ ";"))) ++ "\""
  | .flag => a.1

mutual

/-- Modelled from the spec: the HTML serializer (`Element#html` /
`inner_html`), compact form — tag, attributes, children; void tags
self-close with no children (§4.1). -/
def htmlToString : HtmlNode → String
  | .text c .NORMAL => escapeNormal c
  | .text c .CODE => escapeCode c
  | .text c .RAW => c
  | .comment c => "<!--" ++ c ++ "-->"
  | .element tag attrs children =>
    let attrsStr := String.join (attrs.map (fun a => " " ++ attrToString a))
    if tag ∈ voidTags then "<" ++ tag ++ attrsStr ++ " />"
    else "<" ++ tag ++ attrsStr ++ ">" ++ htmlListToString children ++ "</" ++ tag ++ ">"

/-- Serialization of a child list. -/
def htmlListToString : List HtmlNode → String
  | [] => ""
  | n :: ns => htmlToString n ++ htmlListToString ns

end

/-- `inner_html`: the serialization of an element's children. -/
def innerHtml : HtmlNode → String
  | .element _ _ children => htmlListToString children
  | .text c _ => c
  | .comment c => c

/-- Split a character list at the first occurrence of a pattern, returning
the part before and the part after the pattern. -/
def splitOnFirst (pat : List Char) : List Char → Option (List Char × List Char)
  | [] => if pat.isEmpty then some ([], []) else none
  | c :: cs =>
    if pat.isPrefixOf (c :: cs) then some ([], (c :: cs).drop pat.length)
    else do
      let (pre, post) ← splitOnFirst pat cs
      pure (c :: pre, post)

/-- Is this character allowed in a tag or attribute name? -/
def isNameChar (c : Char) : Bool :=
  c.isAlphanum || c = '-' || c = '_'

/-- Modelled from the spec: attribute scanning of the HTML micro-parser
(§4.3): `name`, `name=value`, `name="value"`, `name='value'`, ending on `>`
or self-closing `/>`.  Returns the attributes, the self-closing flag and the
rest of the input; `none` when the input ends inside the tag. -/
def parseAttrs : Nat → List Char → List (String × AttrValue) →
    Option (List (String × AttrValue) × Bool × List Char)
  | 0, _, _ => none
  | _ + 1, [], _ => none
  | fuel + 1, c :: cs, acc =>
    if c = ' ' || c = '\t' || c = '\n' then parseAttrs fuel cs acc
    else if c = '>' then some (acc, false, cs)
    else if c = '/' then
      match cs with
      | '>' :: rest => some (acc, true, rest)
      | _ => parseAttrs fuel cs acc
    else
      let name := (c :: cs).takeWhile isNameChar
      let rest := (c :: cs).dropWhile isNameChar
      if name.isEmpty then parseAttrs fuel cs acc
      else match rest with
        | '=' :: '"' :: vrest =>
          match splitOnFirst ['"'] vrest with
          | some (v, after) => parseAttrs fuel after (acc ++ [(String.mk name, .str (String.mk v))])
          | none => none
        | '=' :: '\'' :: vrest =>
          match splitOnFirst ['\''] vrest with
          | some (v, after) => parseAttrs fuel after (acc ++ [(String.mk name, .str (String.mk v))])
          | none => none
        | '=' :: vrest =>
          let v := vrest.takeWhile (fun ch => ch ≠ ' ' && ch ≠ '>')
          parseAttrs fuel (vrest.dropWhile (fun ch => ch ≠ ' ' && ch ≠ '>'))
            (acc ++ [(String.mk name, .str (String.mk v))])
        | _ => parseAttrs fuel rest (acc ++ [(String.mk name, .flag)])

/-- Modelled from the spec: the HTML micro-parser (§4.3).  Yields a sequence
of nodes: `<!-- … -->` comments, start tags with attributes (children parsed
until the matching end tag, or none for `/>`-closed and void tags), and text
runs; an unmatched or stray close tag is emitted as literal text.  `stop` is
the enclosing tag name whose close tag ends the children sequence.  The fuel
decreases at every character consumed, making the scanner total; it is
initialised to the input length plus one. -/
def parseManyHtml : Nat → List Char → Option String → List HtmlNode × List Char
  | 0, cs, _ => ([], cs)
  | _ + 1, [], _ => ([], [])
  | fuel + 1, c :: cs, stop =>
    let input := c :: cs
    let isStop := match stop with
      | some t => ((('<' :: '/' :: t.data) ++ ['>']).isPrefixOf input)
      | none => false
    if isStop then ([], input.drop ((stop.getD "").length + 3))
    else if ['<', '!', '-', '-'].isPrefixOf input then
      match splitOnFirst ['-', '-', '>'] (input.drop 4) with
      | some (content, after) =>
        let (ns, rest) := parseManyHtml fuel after stop
        (.comment (String.mk content) :: ns, rest)
      | none => ([.comment (String.mk (input.drop 4))], [])
    else if c = '<' && (cs.head?.map (fun ch => ch.isAlpha)).getD false then
      let tag := String.mk (cs.takeWhile isNameChar)
      match parseAttrs (fuel + 1) (cs.dropWhile isNameChar) [] with
      | none =>
        -- input ended inside the tag: emit the rest as text
        ([.text (String.mk input) .NORMAL], [])
      | some (attrs, selfClosing, after) =>
        if selfClosing || tag ∈ voidTags then
          let (ns, rest) := parseManyHtml fuel after stop
          (.element tag attrs [] :: ns, rest)
        else
          let (children, after2) := parseManyHtml fuel after (some tag)
          let (ns, rest) := parseManyHtml fuel after2 stop
          (.element tag attrs children :: ns, rest)
    else if c = '<' && cs.head? = some '/' then
      -- unmatched close tag: becomes literal text up to and including the `>`
      let run := input.takeWhile (fun ch => ch ≠ '>')
      let after := (input.dropWhile (fun ch => ch ≠ '>')).drop 1
      let (ns, rest) := parseManyHtml fuel after stop
      (.text (String.mk (run ++ ['>'])) .NORMAL :: ns, rest)
    else
      let run := c :: cs.takeWhile (fun ch => ch ≠ '<')
      let after := cs.dropWhile (fun ch => ch ≠ '<')
      let (ns, rest) := parseManyHtml fuel after stop
      (.text (String.mk run) .NORMAL :: ns, rest)

/-- Modelled from the spec: `html.parse_nodes(fragment)` — scan a fragment
into a node sequence (§4.3). -/
def parse_nodes (s : String) : List HtmlNode :=
  (parseManyHtml (s.length + 1) s.data none).1

/-- Modelled from the spec: `html.parse(fragment, parent)` as used by
`render_latex`: parse the fragment into the parent and return the parent
(the caller then takes its single child if there is exactly one). -/
def parseIntoTemplate (s : String) : HtmlNode :=
  .element "div" [] (parse_nodes s)

mutual

/-- Modelled from the spec: one node of `html.sanitize_elements` (§4.2): an
element whose tag is in the disallowed set is dropped; a surviving element
goes through the attribute-filter callback `fn` after its children are
sanitized; texts and comments pass through unchanged. -/
def sanitizeNode (n : HtmlNode) (disallowed : List String) (fn : HtmlNode → HtmlNode) :
    List HtmlNode :=
  match n with
  | .element tag attrs children =>
    if tag ∈ disallowed then []
    else [fn (.element tag attrs (sanitizeElements children disallowed fn))]
  | x => [x]

/-- Modelled from the spec: `html.sanitize_elements(nodes, disallowed, fn)`
(§4.2), the depth-first walk over a node sequence. -/
def sanitizeElements (nodes : List HtmlNode) (disallowed : List String)
    (fn : HtmlNode → HtmlNode) : List HtmlNode :=
  match nodes with
  | [] => []
  | n :: ns => sanitizeNode n disallowed fn ++ sanitizeElements ns disallowed fn

end

/-- The keep-or-drop decision of `purge_empty_children` on an
already-recursed child: drop empty texts and non-void elements that
collapsed to nothing. -/
def purgeKeep : HtmlNode → List HtmlNode
  | .text c m => if c = "" then [] else [.text c m]
  | .comment c => [.comment c]
  | .element tag attrs children =>
    if tag ∈ voidTags || !attrs.isEmpty || !children.isEmpty then
      [.element tag attrs children]
    else []

mutual

/-- Modelled from the spec: `Element#purge_empty_children` (§4.1): recursively
remove text children whose escaped content is empty and element children
whose serialization collapses to empty (no attributes, no remaining
children), except void tags. -/
def purgeEmptyChildren : HtmlNode → HtmlNode
  | .element tag attrs children => .element tag attrs (purgeEmptyList children)
  | x => x

/-- The recursive filter over a child list. -/
def purgeEmptyList : List HtmlNode → List HtmlNode
  | [] => []
  | n :: ns => purgeKeep (purgeEmptyChildren n) ++ purgeEmptyList ns

end

/-! ### The renderer (renderer.mjs)

User callbacks may throw; a throwing callback is modelled as an
`Except.error` result carrying the error's message.  Rendering functions
return `Except String _`: an `.error` models an exception propagating to the
caller of `render`. -/

/-- An item produced by `render_inline` / `render_latex`: JavaScript lets
these return either an `html` node or a raw string (appending a string to an
element coerces it to a `NORMAL` text node). -/
inductive HtmlPiece where
  | strP (s : String)
  | nodeP (n : HtmlNode)

/-- The value returned by a `latex.render` callback: a string or an HTML
element. -/
inductive LatexValue where
  | str (s : String)
  | node (n : HtmlNode)

/-- The renderer options after `merge_default_options` (DEFAULT_OPTIONS in
renderer.mjs merged with the user's options), flattened into one record.
Callback fields are `Option`s when the default is `null`; a callback returns
`Except String _`, `.error msg` modelling a thrown exception with message
`msg`.  The `parent` option is kept outside this record (it is only read
once, at the top of `render_to_html`).  The internal scratch flags
`should_escape` and `paragraph_as_text` threaded through the descent are
fields here as well.  Not modelled (unused by the claims): the
`latex.katex` adapter and the boolean shorthand for `inline_html`. -/
structure Options where
  block_code_class_name : String
  block_code_highlighter : Option (String → String → Except String (List HtmlNode))
  checkbox_enable : Bool
  checkbox_disabled_property : Bool
  code_process : MDNode → Except String HtmlPiece
  emoji : Option (MDNode → Except String HtmlPiece)
  highlight_enable : Bool
  inline_html_enable : Bool
  inline_html_disallowed_tags : List String
  image_class_name : String
  latex_render : Option (MDNode → Except String LatexValue)
  latex_error_classes : List String
  strikethrough_class_name : String
  table_process : HtmlNode → Except String Unit
  underline_enable : Bool
  underline_class_name : String
  spoiler_enable : Bool
  spoiler_class_name : String
  spoiler_image_class_name : String
  spoiler_hidden_class_name : String
  should_escape : Bool
  paragraph_as_text : Bool

/-- `InlineCode#as_html`:
`html.create_element("code").with_child(new html.Text(content, CODE))` —
the default `code.process` callback. -/
def inlineCodeAsHtml : MDNode → HtmlNode
  | .inlineCode c => .element "code" [] [.text c .CODE]
  | _ => .element "code" [] []

/-- `DEFAULT_OPTIONS` of renderer.mjs (spoiler rendering disabled, inline
HTML enabled, checkbox enabled, no latex/emoji/highlighter callbacks). -/
def defaultOptions : Options where
  block_code_class_name := "block_code"
  block_code_highlighter := none
  checkbox_enable := true
  checkbox_disabled_property := true
  code_process := fun el => .ok (.nodeP (inlineCodeAsHtml el))
  emoji := none
  highlight_enable := true
  inline_html_enable := true
  inline_html_disallowed_tags :=
    ["iframe", "noembed", "noframes", "plaintext", "script", "style", "svg",
      "textarea", "title", "xmp"]
  image_class_name := ""
  latex_render := none
  latex_error_classes := ["error"]
  strikethrough_class_name := "strikethrough"
  table_process := fun _ => .ok ()
  underline_enable := true
  underline_class_name := "underline"
  spoiler_enable := false
  spoiler_class_name := "spoiler"
  spoiler_image_class_name := "spoiler_img"
  spoiler_hidden_class_name := "spoiler_hidden"
  should_escape := false
  paragraph_as_text := false

/-- `ATTRIBUTES_RULES` of renderer.mjs. -/
def attributesRulesStar : List String :=
  ["align", "aria-hidden", "class", "id", "lang", "style", "title"]

/-- The per-tag part of `ATTRIBUTES_RULES`. -/
def attributesRulesTag (tag : String) : List String :=
  if tag = "img" then ["width", "height", "src", "alt"]
  else if tag = "a" then ["href"]
  else []

/-- `sanitize_raw` (renderer.mjs 66–72): keep only the attributes allowed for
every tag or for this element's tag; text nodes pass through. -/
def sanitize_raw (n : HtmlNode) : HtmlNode :=
  match n with
  | .element tag attrs children =>
    .element tag
      (attrs.filter (fun a => a.1 ∈ attributesRulesStar || a.1 ∈ attributesRulesTag tag))
      children
  | x => x

/-- The `display_mode` of an `InlineLatex` node. -/
def latexDisplayMode : MDNode → Bool
  | .inlineLatex _ dm => dm
  | _ => false

/-- `render_latex` (renderer.mjs 93–120).  Without a callback, the raw
`node.toString()` becomes a text node.  A *thrown* callback error is caught
and replaced by the fallback `div`/`span` carrying `latex.error_classes` and
the error message — this is the only callback the renderer guards.  A string
result is returned raw when escaping is off, otherwise parsed into a
template `div` whose single child (or the template itself) is returned. -/
def renderLatex (node : MDNode) (opts : Options) : HtmlPiece :=
  match opts.latex_render with
  | none => .nodeP (.text ((nodeToString node).getD "") .NORMAL)
  | some f =>
    match f node with
    | .error msg =>
      .nodeP (.element (if latexDisplayMode node then "div" else "span")
        [("class", .tokens opts.latex_error_classes)] [.text msg .NORMAL])
    | .ok v =>
      match v with
      | .str s =>
        if !opts.should_escape then .strP s
        else
          let template := parseIntoTemplate s
          match template with
          | .element _ _ [child] => .nodeP child
          | t => .nodeP t
      | .node e => .nodeP e

/-- String-to-`Text` coercion of `Element#append_child`. -/
def pieceToNode : HtmlPiece → HtmlNode
  | .strP s => .text s .NORMAL
  | .nodeP n => n

/-- Append rendered pieces to an element as children. -/
def appendPieces (e : HtmlNode) (ps : List HtmlPiece) : HtmlNode :=
  ps.foldl (fun e p => e.appendChild (pieceToNode p)) e

/-- `node.html()` on a piece: strings stay, nodes serialize
(the `InlineHTML` block path). -/
def pieceToHtmlString : HtmlPiece → String
  | .strP s => s
  | .nodeP n => htmlToString n

/-- The disabled-spoiler branch of `render_inline` (renderer.mjs 206–216):
a plain `span` created with no attributes whose children are the rendered
content wrapped in literal `"||"` markers — when the first piece is an
`html.Text` (`Comment` extends `Text` in the HTML layer) its content is
prefixed with `"||"` in place, otherwise a `"||"` text child is prepended;
a closing `"||"` text child is always appended. -/
def spoilerWrap (content : List HtmlPiece) : HtmlNode :=
  let container := HtmlNode.element "span" [] []
  let (container, content) :=
    match content with
    | .nodeP (.text c m) :: tail =>
      (container, HtmlPiece.nodeP (.text ("||" ++ c) m) :: tail)
    | .nodeP (.comment c) :: tail =>
      (container, HtmlPiece.nodeP (.comment ("||" ++ c)) :: tail)
    | _ => (container.appendChild (.text "||" .NORMAL), content)
  (appendPieces container content).appendChild (.text "||" .NORMAL)

/-- `is_block()` of markdown.mjs: `BlockElement` subclasses and
`HORIZONTAL_RULE` answer `true`; `InlineLatex` answers its `display_mode`;
`ListEntry` and the inline nodes answer `false`. -/
def isBlockNode : MDNode → Bool
  | .heading .. | .paragraph _ | .blockCode .. | .blockQuote _ | .horizontalRule
  | .list .. | .inlineHTML _ | .table .. | .tableRow _ | .tableEntry _
  | .tableOfContents => true
  | .inlineLatex _ dm => dm
  | _ => false

/-- A JavaScript `TypeError` (property access on `undefined`), raised when a
malformed node reaches code expecting an `Element`. -/
def liftOpt : Option α → Except String α
  | some a => .ok a
  | none => .error "TypeError"

mutual

/-- `render_inline` (renderer.mjs 122–248): flat-map every inline node to its
HTML pieces.  `fuel` decreases at every recursive step and bounds
the amount of work (`.error "RecursionError"` on exhaustion models the
engine's stack limit; the concrete theorems supply ample fuel).  Only
`latex.render` is guarded by a `try` — every other callback error propagates
through the `Except` bind. -/
def renderInline : Nat → MDDocument → List MDNode → Options → Bool →
    Except String (List HtmlPiece)
  | _, _, [], _, _ => pure []
  | 0, _, _ :: _, _, _ => .error "RecursionError"
  | fuel + 1, doc, node :: rest, opts, allowLinebreak => do
    let pieces : List HtmlPiece ←
      match node with
      | .emoji _ _ =>
        (match opts.emoji with
          | none => pure [.strP ((nodeToString node).getD "")]
          | some f => do pure [← f node])
      | .text c =>
        if c = "  \n" then
          if !allowLinebreak then pure []
          else pure [.nodeP (.element "br" [] [])]
        else if !opts.should_escape then pure [.strP c]
        else if opts.inline_html_enable then
          pure ((sanitizeElements (parse_nodes c) opts.inline_html_disallowed_tags
            sanitize_raw).map .nodeP)
        else pure [.nodeP (.text c .NORMAL)]
      | .inlineCode _ => do pure [← opts.code_process node]
      | .image url alt tooltip refName => do
        let altStr ← liftOpt (do pure (String.join (← nodesToString alt)))
        let ref : Option Reference :=
          if refName ≠ "" then (doc.references.find? (fun r => r.1 = refName)).map (fun r => r.2)
          else some ⟨url, tooltip⟩
        let el := HtmlNode.element "img" [("alt", .str altStr)] []
        let el := match ref with
          | some r =>
            let el := el.withAttr "src" (.str r.url)
            if r.has_tooltip then el.withAttr "title" (.str (r.tooltip.getD "")) else el
          | none => el
        pure [.nodeP (el.withAttr "class" (.str opts.image_class_name))]
      | .link url title tooltip refName => do
        let ref : Option Reference :=
          if refName ≠ "" then (doc.references.find? (fun r => r.1 = refName)).map (fun r => r.2)
          else some ⟨url, tooltip⟩
        let el := HtmlNode.element "a" [] []
        let el := match ref with
          | some r =>
            let el := el.withAttr "href" (.str r.url)
            if r.has_tooltip then el.withAttr "title" (.str (r.tooltip.getD "")) else el
          | none => el
        let inner ← renderInline fuel doc title opts false
        pure [.nodeP (appendPieces el inner)]
      | .bold ns => do pure [.nodeP (← renderSimple fuel doc ns opts "b" allowLinebreak)]
      | .italic ns => do pure [.nodeP (← renderSimple fuel doc ns opts "em" allowLinebreak)]
      | .strikethrough ns => do
        let el ← renderSimple fuel doc ns opts "span" allowLinebreak
        pure [.nodeP (el.withAttr "class" (.str opts.strikethrough_class_name))]
      | .underline ns =>
        if !opts.underline_enable then do
          pure [.nodeP (← renderSimple fuel doc ns opts "b" allowLinebreak)]
        else do
          let el ← renderSimple fuel doc ns opts "span" allowLinebreak
          pure [.nodeP (el.withAttr "class" (.str opts.underline_class_name))]
      | .highlight ns =>
        if !opts.highlight_enable then
          pure [.nodeP (.text ((nodeToString node).getD "") .NORMAL)]
        else do pure [.nodeP (← renderSimple fuel doc ns opts "mark" allowLinebreak)]
      | .spoiler ns => do
        let content ← renderInline fuel doc ns opts false
        if !opts.spoiler_enable then
          pure [.nodeP (spoilerWrap content)]
        else
          match ns, content with
          | [.image _ _ _ _], img :: _ =>
            -- the image-spoiler shape: `content[0]` is the rendered `<img>`
            let image := (pieceToNode img).addClassToken opts.spoiler_image_class_name
            pure [.nodeP (HtmlNode.element "div" [("class", .str opts.spoiler_class_name)]
              [HtmlNode.element "div"
                [("class", .str (opts.spoiler_image_class_name ++ " "
                  ++ opts.spoiler_hidden_class_name))]
                [image]])]
          | _, _ =>
            let contentEl := appendPieces (HtmlNode.element "span" [] []) content
            pure [.nodeP (HtmlNode.element "span"
              [("class", .str (opts.spoiler_class_name ++ " " ++ opts.spoiler_hidden_class_name))]
              [contentEl])]
      | .inlineLatex _ _ =>
        let el := renderLatex node opts
        if !opts.should_escape then
          match el with
          | .nodeP (.text c _) => pure [.strP c]
          | x => pure [x]
        else pure [el]
      | .comment _ => pure [.nodeP (.comment ((nodeToString node).getD ""))]
      | .inlineLink url =>
        pure [.nodeP (.element "a" [("href", .str url)] [.text url .NORMAL])]
      | .horizontalRule => pure [.nodeP (.element "hr" [] [])]
      | _ => pure []
    let tail ← renderInline fuel doc rest opts allowLinebreak
    pure (pieces ++ tail)
termination_by structural fuel _ _ _ _ => fuel

/-- `render_simple` (renderer.mjs 82–91): fresh element, children rendered
with `should_escape` forced on (saved and restored in the source — here the
modified record is simply local to the call). -/
def renderSimple : Nat → MDDocument → List MDNode → Options → String → Bool →
    Except String HtmlNode
  | 0, _, _, _, _, _ => .error "RecursionError"
  | fuel + 1, doc, ns, opts, elName, allowLinebreak => do
    let pieces ← renderInline fuel doc ns {opts with should_escape := true} allowLinebreak
    pure (appendPieces (HtmlNode.element elName [] []) pieces)
termination_by structural fuel _ _ _ _ _ => fuel

/-- `render_blocks` (renderer.mjs 250–367): render each block and collect the
children appended to the parent element. -/
def renderBlocks : Nat → MDDocument → List MDNode → Options → Except String (List HtmlNode)
  | _, _, [], _ => pure []
  | 0, _, _ :: _, _ => .error "RecursionError"
  | fuel + 1, doc, block :: rest, opts => do
    let nodes : List HtmlNode ←
      match block with
      | .heading ns level => do
        let id ← liftOpt (getId ns)
        let pieces ← renderInline fuel doc ns opts false
        pure [appendPieces (HtmlNode.element level [("id", .str id)] []) pieces]
      | .paragraph ns =>
        if opts.paragraph_as_text then do
          let pieces ← renderInline fuel doc ns opts true
          pure (pieces.map pieceToNode)
        else do
          let pieces ← renderInline fuel doc ns opts true
          pure [appendPieces (HtmlNode.element "p" [] []) pieces]
      | .blockCode code language => do
        let hasLang : Bool := match language with | some l => l != "" | none => false
        let languageClass : Option String :=
          if hasLang then some ("language-" ++ language.getD "") else none
        let codeChildren : List HtmlNode ←
          if hasLang then
            match opts.block_code_highlighter with
            | some f => f code (language.getD "")
            | none => pure [.text code .CODE]
          else pure [.text code .CODE]
        let classAttrs : List (String × AttrValue) :=
          match languageClass with | some lc => [("class", .str lc)] | none => []
        let pre := HtmlNode.element "pre" classAttrs
          [HtmlNode.element "code" classAttrs codeChildren]
        if opts.block_code_class_name ≠ "" then
          pure [HtmlNode.element "div" [("class", .str opts.block_code_class_name)] [pre]]
        else pure [pre]
      | .blockQuote ns => do
        pure [← renderQuoteChildren fuel doc ns opts (HtmlNode.element "blockquote" [] [])]
      | .inlineHTML ns =>
        if opts.inline_html_enable then do
          let pieces ← renderInline fuel doc ns {opts with should_escape := false} true
          let str := String.join (pieces.map pieceToHtmlString)
          pure ((parse_nodes str).map sanitize_raw)
        else do
          let pieces ← renderInline fuel doc [.text ((nodeToString block).getD "")] opts true
          pure [appendPieces (HtmlNode.element "p" [] []) pieces]
      | .inlineLatex _ _ =>
        (match renderLatex block opts with
          | .nodeP (.text c m) =>
            if !opts.paragraph_as_text then pure [HtmlNode.element "p" [] [.text c m]]
            else pure [HtmlNode.text c m]
          | p => pure [pieceToNode p])
      | .list _ _ _ => do pure [← renderList fuel doc block opts 0]
      | .table rows aligns =>
        (match rows with
          | [] => .error "TypeError"
          | head :: body => do
            let thead := HtmlNode.element "thead" []
              [← renderTableRow fuel doc head true aligns opts]
            let tbody := HtmlNode.element "tbody" []
              (← renderTableRows fuel doc body aligns opts)
            let tableEl := HtmlNode.element "table" [("role", .str "table")] [thead, tbody]
            let _ ← opts.table_process tableEl
            pure [tableEl])
      | .tableOfContents => do pure [← renderList fuel doc (tocAsList doc) opts 0]
      | .horizontalRule => pure [.element "hr" [] []]
      | .comment _ => pure [.comment ((nodeToString block).getD "")]
      | .inlineCode _ => pure [inlineCodeAsHtml block]
      | .inlineLink url => pure [.element "a" [("href", .str url)] [.text url .NORMAL]]
      | _ => pure []
    let tail ← renderBlocks fuel doc rest opts
    pure (nodes ++ tail)
termination_by structural fuel _ _ _ => fuel

/-- The `BlockQuote` child loop: block children re-dispatch to
`render_blocks`, inline children to `render_inline`. -/
def renderQuoteChildren : Nat → MDDocument → List MDNode → Options → HtmlNode →
    Except String HtmlNode
  | _, _, [], _, acc => pure acc
  | 0, _, _ :: _, _, _ => .error "RecursionError"
  | fuel + 1, doc, child :: rest, opts, acc => do
    let acc ←
      if isBlockNode child then do
        let ns ← renderBlocks fuel doc [child] opts
        pure (ns.foldl HtmlNode.appendChild acc)
      else do
        let ps ← renderInline fuel doc [child] opts true
        pure (appendPieces acc ps)
    renderQuoteChildren fuel doc rest opts acc
termination_by structural fuel _ _ _ _ => fuel

/-- `render_list` (renderer.mjs 369–411): `ol`/`ul` with `start` when the
list is ordered and starts elsewhere than 1; the depth is clamped at 3
(after which it only gets passed on, so it never affects the output). -/
def renderList : Nat → MDDocument → MDNode → Options → Nat → Except String HtmlNode
  | 0, _, _, _, _ => .error "RecursionError"
  | fuel + 1, doc, l, opts, level =>
    match l with
    | .list entries ordered start =>
      let level := if level > 3 then 3 else level
      let htmlList := HtmlNode.element (if ordered then "ol" else "ul")
        (if ordered && start != 1 then [("start", AttrValue.str (toString start))] else []) []
      do
        let lis ← renderListEntries fuel doc entries opts level
        pure (lis.foldl HtmlNode.appendChild htmlList)
    | _ => .error "TypeError"
termination_by structural fuel _ _ _ _ => fuel

/-- The `list.nodes.forEach` loop of `render_list`: checkbox prefix, entry
content with `paragraph_as_text` switched on (and back off before the
sublists are rendered), then the sublists one level deeper. -/
def renderListEntries : Nat → MDDocument → List MDNode → Options → Nat →
    Except String (List HtmlNode)
  | _, _, [], _, _ => pure []
  | 0, _, _ :: _, _, _ => .error "RecursionError"
  | fuel + 1, doc, entry :: rest, opts, level => do
    match entry with
    | .listEntry ns sublists checked => do
      let li := HtmlNode.element "li" [] []
      let li ←
        match checked with
        | some b =>
          if opts.checkbox_enable then
            let li := li.withStyle "list-style-type" "none"
            let checkbox := HtmlNode.element "input"
              [("type", .str "checkbox"),
               ("style", .style [("list-style-type", "none"), ("margin", "0 0.2em 0 -1.3em")])] []
            let checkbox := if b then checkbox.withAttr "checked" .flag else checkbox
            let checkbox := if opts.checkbox_disabled_property then
              checkbox.withAttr "disabled" .flag else checkbox
            pure (li.appendChild checkbox)
          else pure li
        | none => pure li
      let inner ← renderBlocks fuel doc ns {opts with paragraph_as_text := true}
      let li := inner.foldl HtmlNode.appendChild li
      let subs ← renderSublists fuel doc sublists {opts with paragraph_as_text := false} (level + 1)
      let li := subs.foldl HtmlNode.appendChild li
      let tail ← renderListEntries fuel doc rest opts level
      pure (li :: tail)
    | _ => .error "TypeError"
termination_by structural fuel _ _ _ _ => fuel

/-- The `entry.sublists.map(render_list …)` loop. -/
def renderSublists : Nat → MDDocument → List MDNode → Options → Nat →
    Except String (List HtmlNode)
  | _, _, [], _, _ => pure []
  | 0, _, _ :: _, _, _ => .error "RecursionError"
  | fuel + 1, doc, sub :: rest, opts, level => do
    let s ← renderList fuel doc sub opts level
    let tail ← renderSublists fuel doc rest opts level
    pure (s :: tail)
termination_by structural fuel _ _ _ _ => fuel

/-- `render_table_row` (renderer.mjs 413–427).  The upward
`row.table.get_alignment(index)` pointer is replaced by passing the table's
alignments down (they are all it is used for). -/
def renderTableRow : Nat → MDDocument → MDNode → Bool → List TableAlignment → Options →
    Except String HtmlNode
  | 0, _, _, _, _, _ => .error "RecursionError"
  | fuel + 1, doc, row, head, aligns, opts => do
    let cols ← liftOpt (getNodes row)
    let tds ← renderTableCells fuel doc cols 0 head aligns opts
    pure (HtmlNode.element "tr" [] tds)

/-- The cell loop of `render_table_row`: alignment inline style, then the
entry's inline content. -/
def renderTableCells : Nat → MDDocument → List MDNode → Nat → Bool → List TableAlignment →
    Options → Except String (List HtmlNode)
  | _, _, [], _, _, _, _ => pure []
  | 0, _, _ :: _, _, _, _, _ => .error "RecursionError"
  | fuel + 1, doc, entry :: rest, i, head, aligns, opts => do
    let td := HtmlNode.element (if head then "th" else "td") [] []
    let td := match aligns.getD i .NONE with
      | .NONE => td
      | .LEFT => td.withStyle "text-align" "left"
      | .CENTER => td.withStyle "text-align" "center"
      | .RIGHT => td.withStyle "text-align" "right"
    let ns ← liftOpt (getNodes entry)
    let pieces ← renderInline fuel doc ns opts false
    let tail ← renderTableCells fuel doc rest (i + 1) head aligns opts
    pure (appendPieces td pieces :: tail)
termination_by structural fuel _ _ _ _ _ _ => fuel

/-- The body-row loop of the `Table` case of `render_blocks`. -/
def renderTableRows : Nat → MDDocument → List MDNode → List TableAlignment → Options →
    Except String (List HtmlNode)
  | _, _, [], _, _ => pure []
  | 0, _, _ :: _, _, _ => .error "RecursionError"
  | fuel + 1, doc, row :: rest, aligns, opts => do
    let tr ← renderTableRow fuel doc row false aligns opts
    let tail ← renderTableRows fuel doc rest aligns opts
    pure (tr :: tail)
termination_by structural fuel _ _ _ _ => fuel

end

/-- The `parent` option handed to `render_to_html`: absent (`null`), an
actual `html.Element`, a non-element `html` node, or some other truthy
non-element value. -/
inductive ParentOption where
  | noParent
  | element (e : HtmlNode)
  | notElement

/-- The parent selection of `render_to_html` (renderer.mjs 454–459):
`options.parent && options.parent instanceof html.Element` picks the given
element, *anything else* silently falls back to a fresh `div`. -/
def chooseParent : ParentOption → HtmlNode
  | .element e => if e.isElement then e else .element "div" [] []
  | _ => .element "div" [] []

/-- `render_to_html` (renderer.mjs 436–466): force `should_escape`, choose
the parent, render the blocks into it and purge empty children.  (The
`latex.katex` adapter and the boolean `inline_html` shorthand are not
modelled; `options` is the already-merged record.) -/
def renderToHtml (fuel : Nat) (doc : MDDocument) (parent : ParentOption) (opts : Options) :
    Except String HtmlNode := do
  let opts := {opts with should_escape := true}
  let root := chooseParent parent
  let children ← renderBlocks fuel doc doc.blocks opts
  pure (purgeEmptyChildren (children.foldl HtmlNode.appendChild root))

/-! ### Induction over the nested AST -/

section Induction

variable {P : MDNode → Prop} {Q : List MDNode → Prop}
  (hnil : Q [])
  (hcons : ∀ n l, P n → Q l → Q (n :: l))
  (htext : ∀ c, P (.text c))
  (hemoji : ∀ i st, P (.emoji i st))
  (hinlineCode : ∀ c, P (.inlineCode c))
  (hinlineLink : ∀ u, P (.inlineLink u))
  (hcomment : ∀ ns, Q ns → P (.comment ns))
  (hitalic : ∀ ns, Q ns → P (.italic ns))
  (hbold : ∀ ns, Q ns → P (.bold ns))
  (hunderline : ∀ ns, Q ns → P (.underline ns))
  (hstrikethrough : ∀ ns, Q ns → P (.strikethrough ns))
  (hhighlight : ∀ ns, Q ns → P (.highlight ns))
  (hspoiler : ∀ ns, Q ns → P (.spoiler ns))
  (hlink : ∀ u t tt r, Q t → P (.link u t tt r))
  (himage : ∀ u t tt r, Q t → P (.image u t tt r))
  (hheading : ∀ ns lv, Q ns → P (.heading ns lv))
  (hparagraph : ∀ ns, Q ns → P (.paragraph ns))
  (hblockCode : ∀ c lang, P (.blockCode c lang))
  (hblockQuote : ∀ ns, Q ns → P (.blockQuote ns))
  (hhr : P .horizontalRule)
  (hlist : ∀ es o st, Q es → P (.list es o st))
  (hlistEntry : ∀ ns sl ch, Q ns → Q sl → P (.listEntry ns sl ch))
  (hinlineHTML : ∀ ns, Q ns → P (.inlineHTML ns))
  (hinlineLatex : ∀ raw dm, P (.inlineLatex raw dm))
  (htable : ∀ rows al, Q rows → P (.table rows al))
  (htableRow : ∀ cs, Q cs → P (.tableRow cs))
  (htableEntry : ∀ ns, Q ns → P (.tableEntry ns))
  (htoc : P .tableOfContents)

mutual

/-- Structural induction for `MDNode`, with a companion motive for the
embedded node lists. -/
def mdNodeInd : ∀ n : MDNode, P n
  | .text c => htext c
  | .emoji i st => hemoji i st
  | .inlineCode c => hinlineCode c
  | .inlineLink u => hinlineLink u
  | .comment ns => hcomment ns (mdListInd ns)
  | .italic ns => hitalic ns (mdListInd ns)
  | .bold ns => hbold ns (mdListInd ns)
  | .underline ns => hunderline ns (mdListInd ns)
  | .strikethrough ns => hstrikethrough ns (mdListInd ns)
  | .highlight ns => hhighlight ns (mdListInd ns)
  | .spoiler ns => hspoiler ns (mdListInd ns)
  | .link u t tt r => hlink u t tt r (mdListInd t)
  | .image u t tt r => himage u t tt r (mdListInd t)
  | .heading ns lv => hheading ns lv (mdListInd ns)
  | .paragraph ns => hparagraph ns (mdListInd ns)
  | .blockCode c lang => hblockCode c lang
  | .blockQuote ns => hblockQuote ns (mdListInd ns)
  | .horizontalRule => hhr
  | .list es o st => hlist es o st (mdListInd es)
  | .listEntry ns sl ch => hlistEntry ns sl ch (mdListInd ns) (mdListInd sl)
  | .inlineHTML ns => hinlineHTML ns (mdListInd ns)
  | .inlineLatex raw dm => hinlineLatex raw dm
  | .table rows al => htable rows al (mdListInd rows)
  | .tableRow cs => htableRow cs (mdListInd cs)
  | .tableEntry ns => htableEntry ns (mdListInd ns)
  | .tableOfContents => htoc
termination_by n => sizeOf n

/-- The companion list induction. -/
def mdListInd : ∀ l : List MDNode, Q l
  | [] => hnil
  | n :: l => hcons n l (mdNodeInd n) (mdListInd l)
termination_by l => sizeOf l

end

end Induction

mutual

/-- Well-formedness for serialization: every heading (anywhere) carries one
of the six `HeadingLevel` values, and every table has at least one row whose
head is an `Element` (the two conditions under which the `toString` methods
cannot throw). -/
def wfNode : MDNode → Bool
  | .text _ | .emoji .. | .inlineCode _ | .inlineLink _ | .horizontalRule
  | .blockCode .. | .inlineLatex .. | .tableOfContents => true
  | .comment ns => wfList ns
  | .italic ns => wfList ns
  | .bold ns => wfList ns
  | .underline ns => wfList ns
  | .strikethrough ns => wfList ns
  | .highlight ns => wfList ns
  | .spoiler ns => wfList ns
  | .link _ t _ _ => wfList t
  | .image _ t _ _ => wfList t
  | .heading ns level =>
    (level = "h1" || level = "h2" || level = "h3" || level = "h4" || level = "h5"
      || level = "h6") && wfList ns
  | .paragraph ns => wfList ns
  | .blockQuote ns => wfList ns
  | .list es _ _ => wfList es
  | .listEntry ns sl _ => wfList ns && wfList sl
  | .inlineHTML ns => wfList ns
  | .table rows _ =>
    (match rows with
      | [] => false
      | head :: _ => (getNodes head).isSome) && wfList rows
  | .tableRow cs => wfList cs
  | .tableEntry ns => wfList ns

/-- `wfNode` over a node list. -/
def wfList : List MDNode → Bool
  | [] => true
  | n :: l => wfNode n && wfList l

end

/-- `get_references(block)` is defined (not `undefined`) — the condition for
a *top-level* block not to poison the reference array of
`MDDocument#toString`.  It fails exactly for the blocks that are not
`Element` instances and for a `Link`/`Image` with empty `ref_name`. -/
def topBlockOk : MDNode → Bool
  | .text _ | .emoji .. | .inlineCode _ | .inlineLink _ | .horizontalRule => false
  | .link _ _ _ refName => refName ≠ ""
  | .image _ _ _ refName => refName ≠ ""
  | _ => true

mutual

/-- No `md.Comment` node anywhere: the condition under which the JSON
round-trip can succeed (a `Comment` serializes without a `type` tag). -/
def commentFree : MDNode → Bool
  | .text _ | .emoji .. | .inlineCode _ | .inlineLink _ | .horizontalRule
  | .blockCode .. | .inlineLatex .. | .tableOfContents => true
  | .comment _ => false
  | .italic ns => commentFreeList ns
  | .bold ns => commentFreeList ns
  | .underline ns => commentFreeList ns
  | .strikethrough ns => commentFreeList ns
  | .highlight ns => commentFreeList ns
  | .spoiler ns => commentFreeList ns
  | .link _ t _ _ => commentFreeList t
  | .image _ t _ _ => commentFreeList t
  | .heading ns _ => commentFreeList ns
  | .paragraph ns => commentFreeList ns
  | .blockQuote ns => commentFreeList ns
  | .list es _ _ => commentFreeList es
  | .listEntry ns sl _ => commentFreeList ns && commentFreeList sl
  | .inlineHTML ns => commentFreeList ns
  | .table rows _ => commentFreeList rows
  | .tableRow cs => commentFreeList cs
  | .tableEntry ns => commentFreeList ns

/-- `commentFree` over a node list. -/
def commentFreeList : List MDNode → Bool
  | [] => true
  | n :: l => commentFree n && commentFreeList l

end

/-- The serialized outcome of a render: the rendered element as HTML text, or
the propagated error message. -/
def htmlOut (r : Except String HtmlNode) : Except String String := r.map htmlToString

instance : DecidableEq (Except String String) := fun a b =>
  match a, b with
  | .ok x, .ok y => if h : x = y then isTrue (by rw [h]) else isFalse (by simp [h])
  | .error x, .error y => if h : x = y then isTrue (by rw [h]) else isFalse (by simp [h])
  | .ok _, .error _ => isFalse (by simp)
  | .error _, .ok _ => isFalse (by simp)

/-- The documents of the spec's Heading + TOC scenario:
`# A`, `## B`, `[[ToC]]`. -/
def headingTocDoc : MDDocument :=
  ⟨[mkHeading [.text "A"] "h1", mkHeading [.text "B"] "h2", .tableOfContents], []⟩



/-- Serializer totality, per node: a well-formed node stringifies, and so
does the child list `get_nodes` would return for it. -/
def SerTotal (n : MDNode) : Prop :=
  wfNode n = true → (nodeToString n).isSome = true ∧
    ∀ ms, getNodes n = some ms → (nodesToString ms).isSome = true

/-- A document serializes without throwing when its blocks are well formed
and every top-level block has a defined `get_references` result (an
`Element` that is not an unreferenced `Link`/`Image` — in particular not
`HORIZONTAL_RULE`). -/
def wfDoc (doc : MDDocument) : Bool :=
  wfList doc.blocks && doc.blocks.all topBlockOk

/-- JSON round-trip, per node: a `Comment`-free node decodes back from its
serialization. -/
def RoundTrips (n : MDNode) : Prop :=
  commentFree n = true → fromJson (toJson n) = some n

/-- The document used as the C4 counterexample: a paragraph holding a
`md.Comment`. -/
def commentDoc : MDDocument := ⟨[.paragraph [.comment [.text "x"]]], []⟩

/-- The character classes the claim allows in `get_id` output: lowercase
letters, digits, `-`, and the characters of URL-encoded bytes (`%` — the
hex digits fall into the letter and digit classes after lowercasing). -/
def claimedCharOk (c : Char) : Bool :=
  ('a' ≤ c && c ≤ 'z') || ('0' ≤ c && c ≤ '9') || c = '-' || c = '%'

/-- The corrected character classes: the claimed ones plus the punctuation
`encodeURI` leaves unescaped. -/
def amendedCharOk (c : Char) : Bool :=
  claimedCharOk c || c ∈ uriPunctChars

/-- Members of a purged node list are never linebreaks. -/
theorem purge_no_linebreak {l : List MDNode} {n : MDNode} (h : n ∈ purge_linebreaks l) :
    isLinebreakText n = false := by
  simp only [purge_linebreaks, List.mem_filter, Bool.not_eq_true'] at h
  exact h.2

/-- **C6 — counterexample.**  `Element#push` does *not* drop linebreaks: pushing
the `LINEBREAK` constant into an (empty) `Strikethrough` leaves the linebreak
among its nodes, contradicting the claim that a no-linebreaks container never
holds a `Linebreak` after `push`. -/
theorem strikethrough_push_keeps_linebreak :
    elementPush (mkStrikethrough []) LINEBREAK = MDNode.strikethrough [LINEBREAK]
      ∧ isLinebreakText LINEBREAK = true :=
  ⟨rfl, rfl⟩

/-- **C6 (amended).**  The no-linebreaks containers (`Strikethrough`,
`Highlight`, `Spoiler`, `Heading`, `Link` title) drop `Linebreak` children on
*construction* (`purge_linebreaks` in the `Element` constructor); `push`
appends without purging, so the containers are linebreak-free only as built
by their constructors. -/
theorem constructors_purge_linebreaks (ns : List MDNode) (level url : String)
    (tooltip : Option String) (reference : Option String) (title : LinkTitle) :
    (∀ n ∈ (getNodes (mkStrikethrough ns)).getD [], isLinebreakText n = false)
    ∧ (∀ n ∈ (getNodes (mkHighlight ns)).getD [], isLinebreakText n = false)
    ∧ (∀ n ∈ (getNodes (mkSpoiler ns)).getD [], isLinebreakText n = false)
    ∧ (∀ n ∈ (getNodes (mkHeading ns level)).getD [], isLinebreakText n = false)
    ∧ (∀ l, mkLink url title tooltip reference = some l →
        ∀ n ∈ (getNodes l).getD [], isLinebreakText n = false) := by
  refine ⟨fun _ h => purge_no_linebreak h, fun _ h => purge_no_linebreak h,
    fun _ h => purge_no_linebreak h, fun _ h => purge_no_linebreak h, ?_⟩
  intro l hl n hn
  have hsh : ∃ ms, getNodes l = some (purge_linebreaks ms) := by
    cases title with
    | undef => exact absurd hl (by simp [mkLink])
    | str s =>
      by_cases hs : s = ""
      · exact absurd hl (by simp [mkLink, hs])
      · refine ⟨[.text s], ?_⟩
        simp only [mkLink, hs, if_false, Option.some.injEq] at hl
        rw [← hl]
        rfl
    | nodes ms =>
      refine ⟨ms, ?_⟩
      simp only [mkLink, Option.some.injEq] at hl
      rw [← hl]
      rfl
  obtain ⟨ms, hms⟩ := hsh
  rw [hms] at hn
  exact purge_no_linebreak hn

/-- **C6 — witness.** -/
theorem constructors_purge_linebreaks_witness :
    isLinebreakText (MDNode.text "a") = false :=
  (constructors_purge_linebreaks [LINEBREAK, .text "a"] "h1" "u" none none .undef).1
    (.text "a") (by simp [mkStrikethrough, purge_linebreaks, getNodes, isLinebreakText])

/-- **C8.**  Every `List` keeps the invariant that its nodes are `ListEntry`
instances: the constructor wraps each non-`ListEntry` entry, `push` wraps any
pushed non-`ListEntry` node (a pushed `List` becomes the sublist of a fresh
entry), and `get_last` on a non-empty invariant-satisfying list returns a
`ListEntry`. -/
theorem list_entries_invariant :
    (∀ (entries : List MDNode) (ordered : Bool) (start : Int),
      ∀ n ∈ (getNodes (mkList entries ordered start)).getD [], isListEntry n = true)
    ∧ (∀ (es : List MDNode) (ordered : Bool) (start : Int) (node : MDNode),
      (∀ n ∈ es, isListEntry n = true) →
      ∀ n ∈ (getNodes (listPush (.list es ordered start) node)).getD [], isListEntry n = true)
    ∧ (∀ (es : List MDNode) (ordered : Bool) (start : Int),
      es ≠ [] → (∀ n ∈ es, isListEntry n = true) →
      ∃ e, listGetLast (.list es ordered start) = some e ∧ isListEntry e = true) := by
  refine ⟨?_, ?_, ?_⟩
  · intro entries ordered start n hn
    simp only [mkList, getNodes, Option.getD_some, List.mem_map] at hn
    obtain ⟨e, _, rfl⟩ := hn
    by_cases h : isListEntry e = true
    · simpa [h]
    · simp only [Bool.not_eq_true] at h
      simp only [h, Bool.false_eq_true, if_false]
      rfl
  · intro es ordered start node hinv n hn
    simp only [listPush, getNodes, Option.getD_some, List.mem_append, List.mem_singleton] at hn
    rcases hn with hn | rfl
    · exact hinv n hn
    · by_cases h : isListEntry node = true
      · simpa [h]
      · simp only [Bool.not_eq_true] at h
        by_cases h2 : isListNode node = true
        · simp only [h, h2, Bool.false_eq_true, if_false, if_true]
          rfl
        · simp only [Bool.not_eq_true] at h2
          simp only [h, h2, Bool.false_eq_true, if_false]
          rfl
  · intro es ordered start hne hinv
    refine ⟨es.getLast hne, ?_, hinv _ (List.getLast_mem hne)⟩
    simp [listGetLast, List.getLast?_eq_getLast _ hne]

/-- **C8 — witness.** -/
theorem list_entries_invariant_witness :
    ∃ e, listGetLast (.list [mkListEntry [] none none] true 1) = some e
      ∧ isListEntry e = true :=
  list_entries_invariant.2.2 [mkListEntry [] none none] true 1 (by simp)
    (by intro n hn; simp only [List.mem_singleton] at hn; subst hn; rfl)



/-- **C2 — counterexample.**  For the document `# A`, `## B`, `[[ToC]]`
(exactly one H1), `as_list` *removes* the H1 instead of keeping it at top
level: the resulting ordered list has a single top-level entry linking to
`#b` with no sublist — it is not a list whose single top-level entry links
to `#a` (for any title, tooltip, reference, sublists or checkbox state), as
the claim requires. -/
theorem toc_single_h1_counterexample :
    tocAsList headingTocDoc
      = .list [.listEntry [.paragraph [.link "#b" [.text "B"] none ""]] [] none] true 1
    ∧ ∀ (t : List MDNode) (tt : Option String) (r : String) (sub : List MDNode)
        (chk : Option Bool),
        tocAsList headingTocDoc
          ≠ .list [.listEntry [.paragraph [.link "#a" t tt r]] sub chk] true 1 := by
  refine ⟨rfl, ?_⟩
  intro t tt r sub chk h
  rw [show tocAsList headingTocDoc
      = .list [.listEntry [.paragraph [.link "#b" [.text "B"] none ""]] [] none] true 1
    from rfl] at h
  simp at h

/-- **C2 (amended).**  Headings are collected in document order; with more
than one H1 the H1s are top-level entries; with at most one H1 the H1
headings are *dropped* and the remaining headings are demoted one level.
For `# A`, `## B`, `[[ToC]]` the TOC list is therefore an ordered list with
the single top-level entry linking to `#b` and no sublist, and the document
renders to `<div><h1 id="a">A</h1><h2 id="b">B</h2><ol><li><a href="#b">B</a></li></ol></div>`. -/
theorem toc_single_h1_corrected :
    tocAsList headingTocDoc
      = .list [.listEntry [.paragraph [.link "#b" [.text "B"] none ""]] [] none] true 1
    ∧ htmlOut (renderToHtml 20 headingTocDoc .noParent defaultOptions)
      = .ok "<div><h1 id=\"a\">A</h1><h2 id=\"b\">B</h2><ol><li><a href=\"#b\">B</a></li></ol></div>"
    ∧ (tocAsList ⟨[mkHeading [.text "A"] "h1", mkHeading [.text "B"] "h2",
        mkHeading [.text "C"] "h1", .tableOfContents], []⟩
      = .list [.listEntry [.paragraph [.link "#a" [.text "A"] none ""]]
            [.list [.listEntry [.paragraph [.link "#b" [.text "B"] none ""]] [] none] true 1]
            none,
          .listEntry [.paragraph [.link "#c" [.text "C"] none ""]] [] none] true 1) :=
  ⟨rfl, by decide, rfl⟩

/-- **C3 — counterexample.**  Rendering with a supplied `parent` that is not
an HTML `Element` does *not* raise: `render_to_html` of the empty document
with a non-element parent succeeds and returns a fresh `div`, where the
claim requires it to fail. -/
theorem render_junk_parent_succeeds :
    htmlOut (renderToHtml 10 ⟨[], []⟩ .notElement defaultOptions) = .ok "<div></div>" := by
  decide

/-- **C3 (amended).**  A supplied `parent` that is not an HTML `Element`
never causes `render_to_html` to fail: it is silently ignored and rendering
proceeds exactly as with no parent, into a fresh `div`; a parent that *is*
an element is used as the root. -/
theorem render_junk_parent_ignored (fuel : Nat) (doc : MDDocument) (opts : Options) :
    renderToHtml fuel doc .notElement opts = renderToHtml fuel doc .noParent opts
    ∧ (∀ tag attrs children,
        chooseParent (.element (.element tag attrs children)) = .element tag attrs children)
    ∧ chooseParent .notElement = .element "div" [] [] :=
  ⟨rfl, fun _ _ _ => rfl, rfl⟩

/-- Appending pieces to an element appends their node forms as children. -/
theorem appendPieces_element (t : String) (a : List (String × AttrValue))
    (cs : List HtmlNode) (ps : List HtmlPiece) :
    appendPieces (.element t a cs) ps = .element t a (cs ++ ps.map pieceToNode) := by
  induction ps generalizing cs with
  | nil => simp [appendPieces]
  | cons p ps ih =>
    show appendPieces ((HtmlNode.element t a cs).appendChild (pieceToNode p)) ps = _
    rw [show (HtmlNode.element t a cs).appendChild (pieceToNode p)
        = .element t a (cs ++ [pieceToNode p]) from rfl, ih]
    simp

/-- Rendering an empty inline list yields no pieces, whatever the fuel. -/
theorem renderInline_nil (fuel : Nat) (doc : MDDocument) (opts : Options)
    (al : Bool) : renderInline fuel doc [] opts al = .ok [] := by
  cases fuel <;> rfl

/-- `spoilerWrap` always builds an attribute-free `span` whose last child is
the closing `"||"` marker and whose first child opens with `"||"`. -/
theorem spoilerWrap_shape (content : List HtmlPiece) :
    ∃ cs, spoilerWrap content = HtmlNode.element "span" [] cs
      ∧ cs.getLast? = some (.text "||" .NORMAL)
      ∧ (match cs.head? with
          | some (.text c _) => ∃ r, c = "||" ++ r
          | some (.comment c) => ∃ r, c = "||" ++ r
          | _ => False) := by
  have tailmark : ∀ (x : HtmlNode) (l : List HtmlNode),
      (x :: (l ++ [HtmlNode.text "||" .NORMAL])).getLast?
        = some (.text "||" .NORMAL) := by
    intro x l
    rw [show x :: (l ++ [HtmlNode.text "||" .NORMAL])
        = (x :: l) ++ [HtmlNode.text "||" .NORMAL] from rfl]
    exact List.getLast?_concat _
  rcases content with _ | ⟨p, tail⟩
  · exact ⟨[.text "||" .NORMAL, .text "||" .NORMAL], rfl, rfl, ⟨"", rfl⟩⟩
  rcases p with s | n
  · refine ⟨HtmlNode.text "||" TextMode.NORMAL
        :: ((HtmlPiece.strP s :: tail).map pieceToNode
          ++ [HtmlNode.text "||" TextMode.NORMAL]), ?_, tailmark _ _, ?_⟩
    · show ((appendPieces (HtmlNode.element "span" [] [.text "||" .NORMAL])
        (HtmlPiece.strP s :: tail))).appendChild (.text "||" .NORMAL) = _
      rw [appendPieces_element]
      rfl
    · exact ⟨"", rfl⟩
  rcases n with ⟨tg, a, ch⟩ | ⟨c, m⟩ | c
  · refine ⟨HtmlNode.text "||" TextMode.NORMAL
        :: ((HtmlPiece.nodeP (.element tg a ch) :: tail).map pieceToNode
          ++ [HtmlNode.text "||" TextMode.NORMAL]), ?_, tailmark _ _, ?_⟩
    · show ((appendPieces (HtmlNode.element "span" [] [.text "||" .NORMAL])
        (HtmlPiece.nodeP (.element tg a ch) :: tail))).appendChild
          (.text "||" .NORMAL) = _
      rw [appendPieces_element]
      rfl
    · exact ⟨"", rfl⟩
  · refine ⟨HtmlNode.text ("||" ++ c) m
        :: (tail.map pieceToNode ++ [HtmlNode.text "||" TextMode.NORMAL]),
      ?_, tailmark _ _, ?_⟩
    · show ((appendPieces (HtmlNode.element "span" [] [])
        (HtmlPiece.nodeP (.text ("||" ++ c) m) :: tail))).appendChild
          (.text "||" .NORMAL) = _
      rw [appendPieces_element]
      rfl
    · exact ⟨c, rfl⟩
  · refine ⟨HtmlNode.comment ("||" ++ c)
        :: (tail.map pieceToNode ++ [HtmlNode.text "||" TextMode.NORMAL]),
      ?_, tailmark _ _, ?_⟩
    · show ((appendPieces (HtmlNode.element "span" [] [])
        (HtmlPiece.nodeP (.comment ("||" ++ c)) :: tail))).appendChild
          (.text "||" .NORMAL) = _
      rw [appendPieces_element]
      rfl
    · exact ⟨c, rfl⟩

/-- **C10.**  Spoiler rendering is disabled by default
(`DEFAULT_OPTIONS.spoiler.enable = false`), and for *every* fuel, document,
spoiler child list, linebreak flag and options with spoiler rendering
disabled, `render_inline` on the `Spoiler` node takes the plain branch: it
returns the single node `spoilerWrap content` built from the spoiler's
rendered children `content`, an attribute-free `span` — in particular
carrying neither `spoiler.class_name` nor the `spoiler.hidden_class_name`
hidden markup — whose children are the rendered content wrapped in literal
`"||"` markers (the last child is the closing `"||"` text and the first
child opens with `"||"`). -/
theorem spoiler_disabled_by_default (fuel : Nat) (doc : MDDocument)
    (ns : List MDNode) (opts : Options) (al : Bool) (content : List HtmlPiece)
    (hdis : opts.spoiler_enable = false)
    (hc : renderInline fuel doc ns opts false = .ok content) :
    defaultOptions.spoiler_enable = false
    ∧ renderInline (fuel + 1) doc [.spoiler ns] opts al =
        .ok [.nodeP (spoilerWrap content)]
    ∧ ∃ cs, spoilerWrap content = HtmlNode.element "span" [] cs
        ∧ cs.getLast? = some (.text "||" .NORMAL)
        ∧ (match cs.head? with
            | some (.text c _) => ∃ r, c = "||" ++ r
            | some (.comment c) => ∃ r, c = "||" ++ r
            | _ => False) := by
  refine ⟨rfl, ?_, spoilerWrap_shape content⟩
  rw [renderInline]
  simp only [hc, hdis, renderInline_nil, Bool.not_false, if_true, Except.bind,
    List.append_nil]
  rfl

/-- **C10 — witness.** -/
theorem spoiler_disabled_by_default_witness :
    defaultOptions.spoiler_enable = false
    ∧ renderInline 1 ⟨[], []⟩ [.spoiler []] defaultOptions true =
        .ok [.nodeP (spoilerWrap [])]
    ∧ ∃ cs, spoilerWrap [] = HtmlNode.element "span" [] cs
        ∧ cs.getLast? = some (.text "||" .NORMAL)
        ∧ (match cs.head? with
            | some (.text c _) => ∃ r, c = "||" ++ r
            | some (.comment c) => ∃ r, c = "||" ++ r
            | _ => False) :=
  spoiler_disabled_by_default 0 ⟨[], []⟩ [] defaultOptions true [] rfl rfl

/-- **C7.**  Among the user callbacks only `latex.render` is guarded: a
throwing `latex.render` yields the fallback element (`div` in display mode,
`span` otherwise) carrying `latex.error_classes` with the error message as
its child — for *every* message, raw source and display mode; a throwing
`emoji`, `code.process`, `block_code.highlighter` or `table.process`
callback propagates its error to the caller of `render`. -/
theorem latex_caught_others_propagate (msg raw : String) (dm : Bool) :
    renderLatex (.inlineLatex raw dm)
        {defaultOptions with latex_render := some (fun _ => .error msg)}
      = .nodeP (.element (if dm then "div" else "span")
          [("class", .tokens ["error"])] [.text msg .NORMAL])
    ∧ htmlOut (renderToHtml 10 ⟨[.paragraph [.emoji "smile" none]], []⟩ .noParent
        {defaultOptions with emoji := some (fun _ => .error "boom")}) = .error "boom"
    ∧ htmlOut (renderToHtml 10 ⟨[.paragraph [.inlineCode "x"]], []⟩ .noParent
        {defaultOptions with code_process := fun _ => .error "boom"}) = .error "boom"
    ∧ htmlOut (renderToHtml 10 ⟨[.blockCode "x" (some "js")], []⟩ .noParent
        {defaultOptions with block_code_highlighter := some (fun _ _ => .error "boom")})
      = .error "boom"
    ∧ htmlOut (renderToHtml 10 ⟨[.table [.tableRow [.tableEntry [.text "a"]]] []], []⟩
        .noParent {defaultOptions with table_process := fun _ => .error "boom"})
      = .error "boom" :=
  ⟨rfl, by decide, by decide, by decide, by decide⟩

/-- **C9 (code bug).**  For every URL, tooltip and reference, constructing a
`Link` or an `Image` with an `undefined` or empty-string title throws: the
constructor substitutes `title = new Text(url)`, and the `Element`
constructor wraps only strings and `Element` instances into arrays, so the
bare `Text` (a plain `Node`) reaches `nodes.map`, which is not a function on
it — a `TypeError` is raised and the title never becomes the intended
`[Text(url)]`. -/
theorem link_default_title_throws (url : String) (tooltip : Option String)
    (reference : Option String) :
    mkLink url .undef tooltip reference = none
    ∧ mkLink url (.str "") tooltip reference = none
    ∧ mkImage url .undef tooltip reference = none
    ∧ mkImage url (.str "") tooltip reference = none := by
  refine ⟨rfl, ?_, rfl, ?_⟩ <;> simp [mkLink, mkImage]



/-- A list of nodes that are all serializable stringifies. -/
theorem nodesToString_isSome_of {l : List MDNode} (h : ∀ n ∈ l, SerTotal n)
    (hwf : wfList l = true) : (nodesToString l).isSome = true := by
  induction l with
  | nil => simp [nodesToString]
  | cons n t ih =>
    simp only [wfList, Bool.and_eq_true] at hwf
    obtain ⟨s1, hs1⟩ := Option.isSome_iff_exists.mp ((h n (by simp)) hwf.1).1
    obtain ⟨s2, hs2⟩ := Option.isSome_iff_exists.mp
      (ih (fun m hm => h m (List.mem_cons_of_mem _ hm)) hwf.2)
    simp [nodesToString, hs1, hs2]

/-- Serializer totality for every node, by structural induction. -/
theorem serTotal_all : ∀ n, SerTotal n := by
  refine mdNodeInd (Q := fun l => ∀ n ∈ l, SerTotal n) ?_ ?_ ?_ ?_ ?_ ?_ ?_ ?_ ?_ ?_ ?_ ?_
    ?_ ?_ ?_ ?_ ?_ ?_ ?_ ?_ ?_ ?_ ?_ ?_ ?_ ?_ ?_ ?_
  -- Q []
  · intro n hn; cases hn
  -- Q cons
  · intro n l hn hl m hm
    rcases List.mem_cons.mp hm with rfl | hm
    · exact hn
    · exact hl m hm
  -- text
  · intro c _
    exact ⟨by simp [nodeToString], by intro ms hms; simp [getNodes] at hms⟩
  -- emoji
  · intro i st _
    refine ⟨?_, by intro ms hms; simp [getNodes] at hms⟩
    cases st <;> simp [nodeToString]
  -- inlineCode
  · intro c _
    refine ⟨?_, by intro ms hms; simp [getNodes] at hms⟩
    by_cases h : c.contains backtick <;> simp [nodeToString, h]
  -- inlineLink
  · intro u _
    exact ⟨by simp [nodeToString], by intro ms hms; simp [getNodes] at hms⟩
  -- comment
  · intro ns hQ hwf
    simp only [wfNode] at hwf
    obtain ⟨ss, hss⟩ := Option.isSome_iff_exists.mp (nodesToString_isSome_of hQ hwf)
    refine ⟨by simp [nodeToString, hss], ?_⟩
    intro ms hms
    simp only [getNodes, Option.some.injEq] at hms
    subst hms
    exact nodesToString_isSome_of hQ hwf
  -- italic
  · intro ns hQ hwf
    simp only [wfNode] at hwf
    obtain ⟨ss, hss⟩ := Option.isSome_iff_exists.mp (nodesToString_isSome_of hQ hwf)
    refine ⟨?_, ?_⟩
    · by_cases h : (String.join ss).contains '*' <;> simp [nodeToString, hss, h]
    · intro ms hms
      simp only [getNodes, Option.some.injEq] at hms
      subst hms
      exact nodesToString_isSome_of hQ hwf
  -- bold
  · intro ns hQ hwf
    simp only [wfNode] at hwf
    obtain ⟨ss, hss⟩ := Option.isSome_iff_exists.mp (nodesToString_isSome_of hQ hwf)
    refine ⟨by simp [nodeToString, hss], ?_⟩
    intro ms hms
    simp only [getNodes, Option.some.injEq] at hms
    subst hms
    exact nodesToString_isSome_of hQ hwf
  -- underline
  · intro ns hQ hwf
    simp only [wfNode] at hwf
    obtain ⟨ss, hss⟩ := Option.isSome_iff_exists.mp (nodesToString_isSome_of hQ hwf)
    refine ⟨by simp [nodeToString, hss], ?_⟩
    intro ms hms
    simp only [getNodes, Option.some.injEq] at hms
    subst hms
    exact nodesToString_isSome_of hQ hwf
  -- strikethrough
  · intro ns hQ hwf
    simp only [wfNode] at hwf
    obtain ⟨ss, hss⟩ := Option.isSome_iff_exists.mp (nodesToString_isSome_of hQ hwf)
    refine ⟨by simp [nodeToString, hss], ?_⟩
    intro ms hms
    simp only [getNodes, Option.some.injEq] at hms
    subst hms
    exact nodesToString_isSome_of hQ hwf
  -- highlight
  · intro ns hQ hwf
    simp only [wfNode] at hwf
    obtain ⟨ss, hss⟩ := Option.isSome_iff_exists.mp (nodesToString_isSome_of hQ hwf)
    refine ⟨by simp [nodeToString, hss], ?_⟩
    intro ms hms
    simp only [getNodes, Option.some.injEq] at hms
    subst hms
    exact nodesToString_isSome_of hQ hwf
  -- spoiler
  · intro ns hQ hwf
    simp only [wfNode] at hwf
    obtain ⟨ss, hss⟩ := Option.isSome_iff_exists.mp (nodesToString_isSome_of hQ hwf)
    refine ⟨by simp [nodeToString, hss], ?_⟩
    intro ms hms
    simp only [getNodes, Option.some.injEq] at hms
    subst hms
    exact nodesToString_isSome_of hQ hwf
  -- link
  · intro u t tt r hQ hwf
    simp only [wfNode] at hwf
    obtain ⟨ss, hss⟩ := Option.isSome_iff_exists.mp (nodesToString_isSome_of hQ hwf)
    refine ⟨?_, ?_⟩
    · simp only [nodeToString, hss, Option.some_bind]
      by_cases h1 : r = "" <;> by_cases h2 : r = String.join ss <;> simp [h1, h2] <;>
        split <;> simp
    · intro ms hms
      simp only [getNodes, Option.some.injEq] at hms
      subst hms
      exact nodesToString_isSome_of hQ hwf
  -- image
  · intro u t tt r hQ hwf
    simp only [wfNode] at hwf
    obtain ⟨ss, hss⟩ := Option.isSome_iff_exists.mp (nodesToString_isSome_of hQ hwf)
    refine ⟨?_, ?_⟩
    · simp only [nodeToString, hss, Option.some_bind]
      by_cases h1 : r = "" <;> by_cases h2 : r = String.join ss <;> simp [h1, h2] <;>
        split <;> simp
    · intro ms hms
      simp only [getNodes, Option.some.injEq] at hms
      subst hms
      exact nodesToString_isSome_of hQ hwf
  -- heading
  · intro ns lv hQ hwf
    simp only [wfNode, Bool.and_eq_true, Bool.or_eq_true, decide_eq_true_eq] at hwf
    obtain ⟨hlv, hns⟩ := hwf
    obtain ⟨ss, hss⟩ := Option.isSome_iff_exists.mp (nodesToString_isSome_of hQ hns)
    refine ⟨?_, ?_⟩
    · rcases hlv with ((((h | h) | h) | h) | h) | h <;> subst h <;> simp [nodeToString, hss]
    · intro ms hms
      simp only [getNodes, Option.some.injEq] at hms
      subst hms
      exact nodesToString_isSome_of hQ hns
  -- paragraph
  · intro ns hQ hwf
    simp only [wfNode] at hwf
    obtain ⟨ss, hss⟩ := Option.isSome_iff_exists.mp (nodesToString_isSome_of hQ hwf)
    refine ⟨by simp [nodeToString, hss], ?_⟩
    intro ms hms
    simp only [getNodes, Option.some.injEq] at hms
    subst hms
    exact nodesToString_isSome_of hQ hwf
  -- blockCode
  · intro c lang _
    refine ⟨by simp [nodeToString.eq_def], ?_⟩
    intro ms hms
    simp only [getNodes, Option.some.injEq] at hms
    subst hms
    simp [nodesToString]
  -- blockQuote
  · intro ns hQ hwf
    simp only [wfNode] at hwf
    obtain ⟨ss, hss⟩ := Option.isSome_iff_exists.mp (nodesToString_isSome_of hQ hwf)
    refine ⟨by simp [nodeToString, hss], ?_⟩
    intro ms hms
    simp only [getNodes, Option.some.injEq] at hms
    subst hms
    exact nodesToString_isSome_of hQ hwf
  -- horizontalRule
  · intro _
    exact ⟨by simp [nodeToString], by intro ms hms; simp [getNodes] at hms⟩
  -- list
  · intro es o st hQ hwf
    simp only [wfNode] at hwf
    obtain ⟨ss, hss⟩ := Option.isSome_iff_exists.mp (nodesToString_isSome_of hQ hwf)
    refine ⟨by simp [nodeToString, hss], ?_⟩
    intro ms hms
    simp only [getNodes, Option.some.injEq] at hms
    subst hms
    exact nodesToString_isSome_of hQ hwf
  -- listEntry
  · intro ns sl ch hQns hQsl hwf
    simp only [wfNode, Bool.and_eq_true] at hwf
    obtain ⟨hns, hsl⟩ := hwf
    obtain ⟨ss, hss⟩ := Option.isSome_iff_exists.mp (nodesToString_isSome_of hQns hns)
    obtain ⟨ts, hts⟩ := Option.isSome_iff_exists.mp (nodesToString_isSome_of hQsl hsl)
    refine ⟨?_, ?_⟩
    · simp only [nodeToString, hss, hts, Option.some_bind]
      split <;> simp
    · intro ms hms
      simp only [getNodes, Option.some.injEq] at hms
      subst hms
      exact nodesToString_isSome_of hQns hns
  -- inlineHTML
  · intro ns hQ hwf
    simp only [wfNode] at hwf
    obtain ⟨ss, hss⟩ := Option.isSome_iff_exists.mp (nodesToString_isSome_of hQ hwf)
    refine ⟨by simp [nodeToString, hss], ?_⟩
    intro ms hms
    simp only [getNodes, Option.some.injEq] at hms
    subst hms
    exact nodesToString_isSome_of hQ hwf
  -- inlineLatex
  · intro raw dm _
    refine ⟨by cases dm <;> simp [nodeToString], ?_⟩
    intro ms hms
    simp only [getNodes, Option.some.injEq] at hms
    subst hms
    simp [nodesToString]
  -- table
  · intro rows al hQ hwf
    simp only [wfNode, Bool.and_eq_true] at hwf
    obtain ⟨hhead, hrows⟩ := hwf
    match rows, hhead with
    | head :: body, hhead =>
      simp only [Option.isSome_iff_exists] at hhead
      obtain ⟨headNodes, hgn⟩ := hhead
      simp only [wfList, Bool.and_eq_true] at hrows
      obtain ⟨hwfhead, hwfbody⟩ := hrows
      have hhn : (nodesToString headNodes).isSome = true :=
        ((hQ head (by simp)) hwfhead).2 headNodes hgn
      obtain ⟨hs, hhs⟩ := Option.isSome_iff_exists.mp hhn
      have hbody : (nodesToString body).isSome = true :=
        nodesToString_isSome_of (fun m hm => hQ m (List.mem_cons_of_mem _ hm)) hwfbody
      obtain ⟨bs, hbs⟩ := Option.isSome_iff_exists.mp hbody
      refine ⟨?_, ?_⟩
      · simp only [nodeToString]
        split
        · rename_i hh
          simp [hgn] at hh
        · rename_i hn2 hh
          rw [hgn] at hh
          injection hh with hh
          subst hh
          simp [hhs, hbs]
      · intro ms hms
        simp only [getNodes, Option.some.injEq] at hms
        subst hms
        simp only [nodesToString]
        have hstr := ((hQ head (by simp)) hwfhead).1
        obtain ⟨s1, hs1⟩ := Option.isSome_iff_exists.mp hstr
        simp [hs1, hbs]
  -- tableRow
  · intro cs hQ hwf
    simp only [wfNode] at hwf
    obtain ⟨ss, hss⟩ := Option.isSome_iff_exists.mp (nodesToString_isSome_of hQ hwf)
    refine ⟨by simp [nodeToString, hss], ?_⟩
    intro ms hms
    simp only [getNodes, Option.some.injEq] at hms
    subst hms
    exact nodesToString_isSome_of hQ hwf
  -- tableEntry
  · intro ns hQ hwf
    simp only [wfNode] at hwf
    obtain ⟨ss, hss⟩ := Option.isSome_iff_exists.mp (nodesToString_isSome_of hQ hwf)
    refine ⟨by simp [nodeToString, hss], ?_⟩
    intro ms hms
    simp only [getNodes, Option.some.injEq] at hms
    subst hms
    exact nodesToString_isSome_of hQ hwf
  -- tableOfContents
  · intro _
    refine ⟨by simp [nodeToString], ?_⟩
    intro ms hms
    simp only [getNodes, Option.some.injEq] at hms
    subst hms
    simp [nodesToString]

/-- A block passing `topBlockOk` never contributes `undefined` to the
reference accumulator. -/
theorem get_references_defined {b : MDNode} (h : topBlockOk b = true) :
    get_references b ≠ .undef := by
  cases b <;> simp_all [topBlockOk, get_references] <;> intro hc <;> simp [hc] at h ⊢
    <;> simp_all

/-- Folding `concat(get_references(block))` over blocks that all pass
`topBlockOk` keeps every accumulator entry defined. -/
theorem foldl_concatRefs_all_some {blocks : List MDNode} :
    ∀ {acc : List (Option NamedRef)}, (∀ x ∈ acc, x.isSome = true) →
    (∀ b ∈ blocks, topBlockOk b = true) →
    ∀ x ∈ blocks.foldl (fun acc b => concatRefs acc (get_references b)) acc,
      x.isSome = true := by
  induction blocks with
  | nil => intro acc hacc _ x hx; exact hacc x hx
  | cons b rest ih =>
    intro acc hacc htop x hx
    simp only [List.foldl_cons] at hx
    refine ih ?_ (fun b hb => htop b (List.mem_cons_of_mem _ hb)) x hx
    intro y hy
    have hb := htop b (by simp)
    rcases hgr : get_references b with _ | r | rs
    · exact absurd hgr (get_references_defined hb)
    · simp only [concatRefs, hgr, List.mem_append, List.mem_singleton] at hy
      rcases hy with hy | rfl
      · exact hacc y hy
      · rfl
    · simp only [concatRefs, hgr, List.mem_append, List.mem_map] at hy
      rcases hy with hy | ⟨z, _, rfl⟩
      · exact hacc y hy
      · rfl

/-- Sequencing succeeds when every entry is defined. -/
theorem seqOpts_isSome {l : List (Option α)} (h : ∀ x ∈ l, x.isSome = true) :
    (seqOpts l).isSome = true := by
  induction l with
  | nil => simp [seqOpts]
  | cons x t ih =>
    match x, h x (by simp) with
    | some a, _ =>
      obtain ⟨ts, hts⟩ := Option.isSome_iff_exists.mp
        (ih (fun y hy => h y (List.mem_cons_of_mem _ hy)))
      simp [seqOpts, hts]

/-- **C1 — counterexample.**  Serialization *does* throw on documents built
from the AST's own variants: a document whose only block is the
`HORIZONTAL_RULE` singleton throws a `TypeError` in `MDDocument#toString`
(the `undefined` returned by `get_references` for the non-`Element` block is
concatenated into the reference array and then dereferenced), and a document
with a heading whose stored level is `"h7"` throws
`Heading#toString`'s invalid-level `Error`. -/
theorem serialization_throws :
    docToString ⟨[.horizontalRule], []⟩ = none
    ∧ docToString ⟨[mkHeading [.text "title"] "h7"], []⟩ = none := by
  constructor
  · simp [docToString, nodesToString, nodeToString, get_references, concatRefs, seqOpts]
  · simp [docToString, nodesToString, nodeToString.eq_def, get_references, concatRefs,
      seqOpts, mkHeading, purge_linebreaks, isLinebreakText]

/-- **C1 (amended).**  Serialization never throws for documents whose
headings all store one of the six `HeadingLevel` values, whose tables are
well formed (a head row that is an `Element`), and whose top-level blocks
all have a defined `get_references` result — which excludes the
`HORIZONTAL_RULE` singleton (not an `Element`) at top level. -/
theorem serialization_total (doc : MDDocument) (h : wfDoc doc = true) :
    (docToString doc).isSome = true := by
  simp only [wfDoc, Bool.and_eq_true, List.all_eq_true] at h
  obtain ⟨hwf, htop⟩ := h
  obtain ⟨parts, hparts⟩ := Option.isSome_iff_exists.mp
    (nodesToString_isSome_of (fun n _ => serTotal_all n) hwf)
  have hrefs : ∀ x ∈ doc.blocks.foldl (fun acc b => concatRefs acc (get_references b))
      (doc.references.map fun r => some ⟨r.1, r.2⟩), x.isSome = true := by
    refine foldl_concatRefs_all_some ?_ ?_
    · intro x hx
      obtain ⟨r, _, rfl⟩ := List.mem_map.mp hx
      rfl
    · intro b hb
      exact htop b hb
  simp only [docToString, hparts, Option.some_bind]
  split
  · simp
  · obtain ⟨refs, hrefs2⟩ := Option.isSome_iff_exists.mp (seqOpts_isSome hrefs)
    simp [hrefs2]

/-- **C1 — witness.** -/
theorem serialization_total_witness :
    (docToString ⟨[.paragraph [.text "hello"]], []⟩).isSome = true :=
  serialization_total ⟨[.paragraph [.text "hello"]], []⟩ (by decide)

/-- Round-trip over the serialization of a node list. -/
theorem fromJsonList_toJsonList {l : List MDNode} (h : ∀ n ∈ l, RoundTrips n)
    (hcf : commentFreeList l = true) : fromJsonList (toJsonList l) = some l := by
  induction l with
  | nil => rfl
  | cons n t ih =>
    simp only [commentFreeList, Bool.and_eq_true] at hcf
    rw [show toJsonList (n :: t) = toJson n :: toJsonList t from rfl,
      show fromJsonList (toJson n :: toJsonList t)
        = (fromJson (toJson n)).bind (fun m => (fromJsonList (toJsonList t)).bind
            (fun ms => some (m :: ms))) from rfl,
      h n (by simp) hcf.1, ih (fun m hm => h m (List.mem_cons_of_mem _ hm)) hcf.2]
    rfl

/-- The serialized alignment names decode back to the alignments. -/
theorem alignments_roundtrip : ∀ al : List TableAlignment,
    alignmentsFromJson (al.map (fun a => Json.str a.name)) = some al := by
  intro al
  induction al with
  | nil => rfl
  | cons a t ih =>
    have : alignmentsFromJson ((a :: t).map (fun a => Json.str a.name))
        = (alignmentOfName a.name).bind (fun x =>
            (alignmentsFromJson (t.map (fun a => Json.str a.name))).bind
              (fun xs => some (x :: xs))) := by
      cases a <;> rfl
    rw [this, ih]
    cases a <;> rfl

/-- Round-trip for every `Comment`-free node, by structural induction. -/
theorem roundTrips_all : ∀ n, RoundTrips n := by
  refine mdNodeInd (Q := fun l => ∀ n ∈ l, RoundTrips n) ?_ ?_ ?_ ?_ ?_ ?_ ?_ ?_ ?_ ?_ ?_ ?_
    ?_ ?_ ?_ ?_ ?_ ?_ ?_ ?_ ?_ ?_ ?_ ?_ ?_ ?_ ?_ ?_
  -- Q []
  · intro n hn; cases hn
  -- Q cons
  · intro n l hn hl m hm
    rcases List.mem_cons.mp hm with rfl | hm
    · exact hn
    · exact hl m hm
  -- text
  · intro c _
    by_cases hc : c = "  \n"
    · subst hc; rfl
    · rw [show toJson (.text c) = if c = "  \n" then .obj [("type", .str "linebreak")]
          else .str c from rfl, if_neg hc]
      rfl
  -- emoji
  · intro i st _
    cases st <;> rfl
  -- inlineCode
  · intro c _; rfl
  -- inlineLink
  · intro u _; rfl
  -- comment
  · intro ns _ hcf
    simp [commentFree] at hcf
  -- italic
  · intro ns hQ hcf
    simp only [commentFree] at hcf
    rw [show fromJson (toJson (.italic ns))
        = (fromJsonList (toJsonList ns)).bind (fun l => some (MDNode.italic l)) from rfl,
      fromJsonList_toJsonList hQ hcf]
    rfl
  -- bold
  · intro ns hQ hcf
    simp only [commentFree] at hcf
    rw [show fromJson (toJson (.bold ns))
        = (fromJsonList (toJsonList ns)).bind (fun l => some (MDNode.bold l)) from rfl,
      fromJsonList_toJsonList hQ hcf]
    rfl
  -- underline
  · intro ns hQ hcf
    simp only [commentFree] at hcf
    rw [show fromJson (toJson (.underline ns))
        = (fromJsonList (toJsonList ns)).bind (fun l => some (MDNode.underline l)) from rfl,
      fromJsonList_toJsonList hQ hcf]
    rfl
  -- strikethrough
  · intro ns hQ hcf
    simp only [commentFree] at hcf
    rw [show fromJson (toJson (.strikethrough ns))
        = (fromJsonList (toJsonList ns)).bind (fun l => some (MDNode.strikethrough l)) from rfl,
      fromJsonList_toJsonList hQ hcf]
    rfl
  -- highlight
  · intro ns hQ hcf
    simp only [commentFree] at hcf
    rw [show fromJson (toJson (.highlight ns))
        = (fromJsonList (toJsonList ns)).bind (fun l => some (MDNode.highlight l)) from rfl,
      fromJsonList_toJsonList hQ hcf]
    rfl
  -- spoiler
  · intro ns hQ hcf
    simp only [commentFree] at hcf
    rw [show fromJson (toJson (.spoiler ns))
        = (fromJsonList (toJsonList ns)).bind (fun l => some (MDNode.spoiler l)) from rfl,
      fromJsonList_toJsonList hQ hcf]
    rfl
  -- link
  · intro u t tt r hQ hcf
    simp only [commentFree] at hcf
    cases tt with
    | none =>
      rw [show fromJson (toJson (.link u t none r))
          = (fromJsonList (toJsonList t)).bind (fun l => some (MDNode.link u l none r)) from rfl,
        fromJsonList_toJsonList hQ hcf]
      rfl
    | some tip =>
      rw [show fromJson (toJson (.link u t (some tip) r))
          = (fromJsonList (toJsonList t)).bind
              (fun l => some (MDNode.link u l (some tip) r)) from rfl,
        fromJsonList_toJsonList hQ hcf]
      rfl
  -- image
  · intro u t tt r hQ hcf
    simp only [commentFree] at hcf
    cases tt with
    | none =>
      rw [show fromJson (toJson (.image u t none r))
          = (fromJsonList (toJsonList t)).bind (fun l => some (MDNode.image u l none r)) from rfl,
        fromJsonList_toJsonList hQ hcf]
      rfl
    | some tip =>
      rw [show fromJson (toJson (.image u t (some tip) r))
          = (fromJsonList (toJsonList t)).bind
              (fun l => some (MDNode.image u l (some tip) r)) from rfl,
        fromJsonList_toJsonList hQ hcf]
      rfl
  -- heading
  · intro ns lv hQ hcf
    simp only [commentFree] at hcf
    rw [show fromJson (toJson (.heading ns lv))
        = (fromJsonList (toJsonList ns)).bind (fun l => some (MDNode.heading l lv)) from rfl,
      fromJsonList_toJsonList hQ hcf]
    rfl
  -- paragraph
  · intro ns hQ hcf
    simp only [commentFree] at hcf
    rw [show fromJson (toJson (.paragraph ns))
        = (fromJsonList (toJsonList ns)).bind (fun l => some (MDNode.paragraph l)) from rfl,
      fromJsonList_toJsonList hQ hcf]
    rfl
  -- blockCode
  · intro c lang _
    cases lang <;> rfl
  -- blockQuote
  · intro ns hQ hcf
    simp only [commentFree] at hcf
    rw [show fromJson (toJson (.blockQuote ns))
        = (fromJsonList (toJsonList ns)).bind (fun l => some (MDNode.blockQuote l)) from rfl,
      fromJsonList_toJsonList hQ hcf]
    rfl
  -- horizontalRule
  · intro _; rfl
  -- list
  · intro es o st hQ hcf
    simp only [commentFree] at hcf
    rw [show fromJson (toJson (.list es o st))
        = (fromJsonList (toJsonList es)).bind (fun l => some (MDNode.list l o st)) from rfl,
      fromJsonList_toJsonList hQ hcf]
    rfl
  -- listEntry
  · intro ns sl ch hQns hQsl hcf
    simp only [commentFree, Bool.and_eq_true] at hcf
    cases ch with
    | none =>
      rw [show fromJson (toJson (.listEntry ns sl none))
          = (fromJsonList (toJsonList ns)).bind (fun l =>
              (fromJsonList (toJsonList sl)).bind (fun l2 =>
                some (MDNode.listEntry l l2 none))) from rfl,
        fromJsonList_toJsonList hQns hcf.1, fromJsonList_toJsonList hQsl hcf.2]
      rfl
    | some b =>
      rw [show fromJson (toJson (.listEntry ns sl (some b)))
          = (fromJsonList (toJsonList ns)).bind (fun l =>
              (fromJsonList (toJsonList sl)).bind (fun l2 =>
                some (MDNode.listEntry l l2 (some b)))) from rfl,
        fromJsonList_toJsonList hQns hcf.1, fromJsonList_toJsonList hQsl hcf.2]
      rfl
  -- inlineHTML
  · intro ns hQ hcf
    simp only [commentFree] at hcf
    rw [show fromJson (toJson (.inlineHTML ns))
        = (fromJsonList (toJsonList ns)).bind (fun l => some (MDNode.inlineHTML l)) from rfl,
      fromJsonList_toJsonList hQ hcf]
    rfl
  -- inlineLatex
  · intro raw dm _; rfl
  -- table
  · intro rows al hQ hcf
    simp only [commentFree] at hcf
    rw [show fromJson (toJson (.table rows al))
        = (fromJsonList (toJsonList rows)).bind (fun l =>
            (alignmentsFromJson (al.map (fun a => Json.str a.name))).bind (fun as2 =>
              some (MDNode.table l as2))) from rfl,
      fromJsonList_toJsonList hQ hcf, alignments_roundtrip]
    rfl
  -- tableRow
  · intro cs hQ hcf
    simp only [commentFree] at hcf
    rw [show fromJson (toJson (.tableRow cs))
        = (fromJsonList (toJsonList cs)).bind (fun l => some (MDNode.tableRow l)) from rfl,
      fromJsonList_toJsonList hQ hcf]
    rfl
  -- tableEntry
  · intro ns hQ hcf
    simp only [commentFree] at hcf
    rw [show fromJson (toJson (.tableEntry ns))
        = (fromJsonList (toJsonList ns)).bind (fun l => some (MDNode.tableEntry l)) from rfl,
      fromJsonList_toJsonList hQ hcf]
    rfl
  -- tableOfContents
  · intro _; rfl

/-- The serialized reference records decode back to the reference list. -/
theorem refs_roundtrip : ∀ refs : List (String × Reference),
    refsFromJson (refs.map (fun r =>
      Json.obj [("name", .str r.1),
        ("ref", .obj ([("url", Json.str r.2.url)]
          ++ (match r.2.tooltip with | some t => [("tooltip", Json.str t)] | none => [])))]))
      = some refs := by
  intro refs
  induction refs with
  | nil => rfl
  | cons r t ih =>
    obtain ⟨name, url, tooltip⟩ := r
    cases tooltip with
    | none =>
      rw [show refsFromJson (((name, (⟨url, none⟩ : Reference)) :: t).map (fun r =>
          Json.obj [("name", .str r.1),
            ("ref", .obj ([("url", Json.str r.2.url)]
              ++ (match r.2.tooltip with
                | some t => [("tooltip", Json.str t)] | none => [])))]))
          = (refsFromJson (t.map (fun r =>
              Json.obj [("name", .str r.1),
                ("ref", .obj ([("url", Json.str r.2.url)]
                  ++ (match r.2.tooltip with
                    | some t => [("tooltip", Json.str t)] | none => [])))]))).bind
              (fun ts => some ((name, (⟨url, none⟩ : Reference)) :: ts)) from rfl, ih]
      rfl
    | some tip =>
      rw [show refsFromJson (((name, (⟨url, some tip⟩ : Reference)) :: t).map (fun r =>
          Json.obj [("name", .str r.1),
            ("ref", .obj ([("url", Json.str r.2.url)]
              ++ (match r.2.tooltip with
                | some t => [("tooltip", Json.str t)] | none => [])))]))
          = (refsFromJson (t.map (fun r =>
              Json.obj [("name", .str r.1),
                ("ref", .obj ([("url", Json.str r.2.url)]
                  ++ (match r.2.tooltip with
                    | some t => [("tooltip", Json.str t)] | none => [])))]))).bind
              (fun ts => some ((name, (⟨url, some tip⟩ : Reference)) :: ts)) from rfl, ih]
      rfl

/-- **C4 — counterexample.**  A `md.Comment` node has no `toJSON` and no kind
in the schema: `JSON.stringify` emits the untagged object `{"nodes": […]}`,
which `from_json` cannot decode, so the round-trip fails on any document
containing a `Comment` (an inline variant of the AST). -/
theorem json_roundtrip_fails_on_comment :
    docFromJson (docToJson commentDoc) = none
    ∧ ∀ d : MDDocument, docFromJson (docToJson commentDoc) ≠ some d := by
  refine ⟨rfl, ?_⟩
  intro d h
  rw [show docFromJson (docToJson commentDoc) = none from rfl] at h
  cases h

/-- **C4 (amended).**  For every node and every document free of `md.Comment`
nodes, `from_json(to_json(·))` returns the original value; documents
containing a `Comment` serialize to an untagged object and do not decode. -/
theorem json_roundtrip (n : MDNode) (doc : MDDocument)
    (hn : commentFree n = true) (hdoc : commentFreeList doc.blocks = true) :
    fromJson (toJson n) = some n ∧ docFromJson (docToJson doc) = some doc := by
  refine ⟨roundTrips_all n hn, ?_⟩
  obtain ⟨blocks, refs⟩ := doc
  rw [show docFromJson (docToJson ⟨blocks, refs⟩)
      = (fromJsonList (toJsonList blocks)).bind (fun bs =>
          (refsFromJson (refs.map (fun r =>
            Json.obj [("name", .str r.1),
              ("ref", .obj ([("url", Json.str r.2.url)]
                ++ (match r.2.tooltip with
                  | some t => [("tooltip", Json.str t)] | none => [])))]))).bind
            (fun rs => some (⟨bs, rs⟩ : MDDocument))) from rfl,
    fromJsonList_toJsonList (fun m _ => roundTrips_all m) hdoc, refs_roundtrip]
  rfl

/-- **C4 — witness.** -/
theorem json_roundtrip_witness :
    fromJson (toJson (MDNode.bold [.text "x"])) = some (MDNode.bold [.text "x"])
    ∧ docFromJson (docToJson ⟨[.paragraph [.text "hi"]], [("home", ⟨"https://ex.com", none⟩)]⟩)
      = some ⟨[.paragraph [.text "hi"]], [("home", ⟨"https://ex.com", none⟩)]⟩ :=
  json_roundtrip (MDNode.bold [.text "x"])
    ⟨[.paragraph [.text "hi"]], [("home", ⟨"https://ex.com", none⟩)]⟩ (by decide) (by decide)

/-- `(Char.ofNat n).toNat = n` below the surrogate range. -/
theorem toNat_ofNat_valid {n : Nat} (h1 : n < 0xd800) : (Char.ofNat n).toNat = n := by
  have h : Nat.isValidChar n := Or.inl h1
  simp [Char.ofNat, h]
  rfl

/-- A hex digit character is one of the sixteen. -/
theorem hexDigit_mem (m : Nat) : hexDigit m ∈ hexDigits := by
  match m with
  | 0 | 1 | 2 | 3 | 4 | 5 | 6 | 7 | 8 | 9 | 10 | 11 | 12 | 13 | 14 | 15 => decide
  | n + 16 =>
    show hexDigits.getD (n + 16) '0' ∈ hexDigits
    rw [List.getD_eq_default]
    · decide
    · simp [hexDigits]

/-- Characters surviving the `%20 → -` replacement come from the input or
are the dash. -/
theorem replacePercent20_mem {c : Char} {cs : List Char} (h : c ∈ replacePercent20 cs) :
    c ∈ cs ∨ c = '-' := by
  induction cs using replacePercent20.induct
  case case1 rest ih =>
    simp only [replacePercent20] at h
    rcases List.mem_cons.mp h with rfl | h
    · right; rfl
    · rcases ih h with h2 | h2
      · left; simp [h2]
      · right; exact h2
  case case2 c0 rest hne ih =>
    simp only [replacePercent20] at h
    rcases List.mem_cons.mp h with rfl | h
    · left; simp
    · rcases ih h with h2 | h2
      · left; simp [h2]
      · right; exact h2
  case case3 =>
    simp [replacePercent20] at h

/-- Characters of `encodeURI` output: an unescaped source character, a `%`,
or an uppercase hex digit. -/
theorem encodeURIChars_mem {c : Char} {cs : List Char} (h : c ∈ encodeURIChars cs) :
    (uriUnescaped c = true) ∨ c = '%' ∨ c ∈ hexDigits := by
  simp only [encodeURIChars, List.mem_flatMap] at h
  obtain ⟨c2, _, hc⟩ := h
  by_cases hu : uriUnescaped c2 = true
  · simp only [encodeURIChar, hu, if_true, List.mem_singleton] at hc
    subst hc
    exact Or.inl hu
  · simp only [encodeURIChar, hu, Bool.false_eq_true, if_false, List.mem_flatMap] at hc
    obtain ⟨b, _, hb⟩ := hc
    simp only [percentByte, List.mem_cons, List.mem_singleton, List.not_mem_nil,
      or_false] at hb
    rcases hb with rfl | rfl | rfl
    · exact Or.inr (Or.inl rfl)
    · exact Or.inr (Or.inr (hexDigit_mem _))
    · exact Or.inr (Or.inr (hexDigit_mem _))

/-- Lowercasing an `encodeURI`-unescaped character lands in the amended
character classes. -/
theorem amended_of_unescaped {c : Char} (h : uriUnescaped c = true) :
    amendedCharOk (jsLower c) = true := by
  simp only [uriUnescaped, uriPunctChars, Bool.or_eq_true, Bool.and_eq_true,
    decide_eq_true_eq, List.mem_cons, List.not_mem_nil, or_false] at h
  rcases h with ((⟨h1, h2⟩ | ⟨h1, h2⟩) | ⟨h1, h2⟩) | hc
  · -- uppercase: lowered into a–z
    have n1 : 65 ≤ c.toNat := h1
    have n2 : c.toNat ≤ 90 := h2
    have hlow : (Char.ofNat (c.toNat + 32)).toNat = c.toNat + 32 :=
      toNat_ofNat_valid (by omega)
    rw [jsLower, if_pos ⟨h1, h2⟩]
    have g1 : 'a' ≤ Char.ofNat (c.toNat + 32) := by
      show (97 : Nat) ≤ (Char.ofNat (c.toNat + 32)).toNat
      omega
    have g2 : Char.ofNat (c.toNat + 32) ≤ 'z' := by
      show (Char.ofNat (c.toNat + 32)).toNat ≤ (122 : Nat)
      omega
    simp only [amendedCharOk, claimedCharOk, Bool.or_eq_true, Bool.and_eq_true,
      decide_eq_true_eq]
    exact Or.inl (Or.inl (Or.inl (Or.inl ⟨g1, g2⟩)))
  · -- already lowercase
    have n1 : 97 ≤ c.toNat := h1
    rw [jsLower, if_neg (by rintro ⟨_, hz⟩; exact absurd (show c.toNat ≤ 90 from hz) (by omega))]
    simp only [amendedCharOk, claimedCharOk, Bool.or_eq_true, Bool.and_eq_true,
      decide_eq_true_eq]
    exact Or.inl (Or.inl (Or.inl (Or.inl ⟨h1, h2⟩)))
  · -- digit
    have n1 : 48 ≤ c.toNat := h1
    have n2 : c.toNat ≤ 57 := h2
    rw [jsLower, if_neg (by rintro ⟨ha, _⟩; exact absurd (show 65 ≤ c.toNat from ha) (by omega))]
    simp only [amendedCharOk, claimedCharOk, Bool.or_eq_true, Bool.and_eq_true,
      decide_eq_true_eq]
    exact Or.inl (Or.inl (Or.inl (Or.inr ⟨h1, h2⟩)))
  · -- unescaped punctuation: twenty concrete characters
    rcases hc with rfl | rfl | rfl | rfl | rfl | rfl | rfl | rfl | rfl | rfl | rfl | rfl
      | rfl | rfl | rfl | rfl | rfl | rfl | rfl | rfl <;> decide

/-- **C5 — counterexample.**  `get_id` of a heading whose text is `"."`
returns `"."`, which contains neither a lowercase letter, a digit, `-`, nor
any character of a URL-encoded byte: the claimed character classes are
wrong. -/
theorem getId_dot_counterexample :
    getId [.text "."] = some "." ∧ ".".data.all claimedCharOk = false :=
  ⟨rfl, rfl⟩

/-- **C5 (amended).**  `get_id` equals `encodeURI` of the heading's plain
text with every `%20` replaced by `-`, lowercased (that is its definition);
every character of the result is a lowercase letter, a digit, `-`, `%`, or
one of the punctuation characters `encodeURI` leaves unescaped
(`_ . ! ~ * ' ( ) ; / ? : @ & = + $ , #`); and calling `get_id` twice on the
same heading yields the same string. -/
theorem getId_charset (nodes : List MDNode) (s : String) (h : getId nodes = some s) :
    s.data.all amendedCharOk = true ∧ getId nodes = getId nodes := by
  refine ⟨?_, rfl⟩
  cases hp : asPlainTextList nodes with
  | none => rw [getId, hp] at h; cases h
  | some plain =>
    rw [getId, hp] at h
    have h2 : some (String.mk ((replacePercent20 (encodeURIChars plain.data)).map jsLower))
        = some s := h
    injection h2 with h2
    subst h2
    rw [show (String.mk ((replacePercent20 (encodeURIChars plain.data)).map jsLower)).data
      = (replacePercent20 (encodeURIChars plain.data)).map jsLower from rfl]
    rw [List.all_eq_true]
    intro c hc
    obtain ⟨c2, hc2, rfl⟩ := List.mem_map.mp hc
    rcases replacePercent20_mem hc2 with hmem | rfl
    · rcases encodeURIChars_mem hmem with hu | rfl | hhex
      · exact amended_of_unescaped hu
      · decide
      · fin_cases hhex <;> decide
    · decide

/-- **C5 — witness.** -/
theorem getId_charset_witness :
    "hello-world".data.all amendedCharOk = true
      ∧ getId [.text "Hello World"] = getId [.text "Hello World"] :=
  getId_charset [.text "Hello World"] "hello-world" rfl

end MD
